import Mathlib

/-!
# Verification of the `focus` content-regeneration scripts

Shallow embedding of the parts of the repository relevant to the frozen
claims: the `difflib.SequenceMatcher.ratio` similarity metric (used by every
`calculate_similarity`), the `clean_content` regex cleanup, the
`regenerate_unique_post` retry loops of the script variants (`xls.py`,
`publi_xls.py`, `publi_ad.py`, `publi_sup.py`, `nav.py`, `marketing.py`),
the `focus.py` wrapper orchestration and the `raindrop.py` dedup loop.

Modelling conventions:
* Python strings are `List Char` / `String`; floats are `ℚ` (every arithmetic
  operation involved — sums of naturals and one division — is exact at the
  values the claims are about, so rational arithmetic is a faithful model).
* The chat-completion service is an oracle `gen : ℕ → ℕ → String` mapping
  (attempt number, max_tokens) to the text of `resp.choices[0].message.content`;
  the scripts run at temperature 0.8, so the response is not a function of the
  request payload and a per-attempt oracle is the faithful deterministic model.
* Python `ValueError` (from `max()` on an empty sequence) is `Except Unit`.
-/

namespace Focus

/-- Python whitespace for `str.strip()` and the regex class `\\s` (`re.UNICODE`):
ASCII whitespace `\\t\\n\\v\\f\\r` and space, the C0 separator block `0x1c`-`0x1f`,
`0x85`, `0xa0`, and the Unicode space characters (`U+1680`, `U+2000`-`U+200A`,
`U+2028`, `U+2029`, `U+202F`, `U+205F`, `U+3000`). -/
def pyIsSpace (c : Char) : Bool :=
  let n := c.toNat
  decide (9 <= n /\ n <= 13) || decide (n = 32) || decide (28 <= n /\ n <= 31) ||
  decide (n = 0x85) || decide (n = 0xa0) || decide (n = 0x1680) ||
  decide (0x2000 <= n /\ n <= 0x200a) || decide (n = 0x2028) || decide (n = 0x2029) ||
  decide (n = 0x202f) || decide (n = 0x205f) || decide (n = 0x3000)

/-- Python `str.strip()` on a character list. -/
def pyStripList (s : List Char) : List Char :=
  ((s.dropWhile pyIsSpace).reverse.dropWhile pyIsSpace).reverse

/-- Python `str.strip()`. -/
def pyStrip (s : String) : String := ⟨pyStripList s.data⟩

/-- Python `str.lower()`, restricted to the ASCII case mapping.  The strings
the scripts search for after lowering (`"2000자"`, `"2500자"`, `"3000자"`)
contain no cased characters, so the ASCII restriction is invisible to them. -/
def pyLowerChar (c : Char) : Char :=
  if 'A' ≤ c ∧ c ≤ 'Z' then Char.ofNat (c.toNat + 32) else c

/-- Python `str.lower()`. -/
def pyLower (s : String) : String := ⟨s.data.map pyLowerChar⟩

/-- `pat` occurs as a prefix of `s` (Python `s.startswith(pat)` on lists). -/
def listStarts : List Char → List Char → Bool
  | [], _ => true
  | _ :: _, [] => false
  | p :: ps, c :: cs => p == c && listStarts ps cs

/-- Python substring test `pat in s` on character lists. -/
def listIn (pat : List Char) : List Char → Bool
  | [] => listStarts pat []
  | c :: cs => listStarts pat (c :: cs) || listIn pat cs

/-- Python substring test `pat in s`. -/
def strIn (pat s : String) : Bool := listIn pat.data s.data

/-- Python `max(l, default=d)` for rationals (left fold of binary `max`). -/
def pyMaxD (l : List ℚ) (d : ℚ) : ℚ :=
  match l with
  | [] => d
  | x :: xs => xs.foldl max x

/-- Python `max(l)` for rationals: raises `ValueError` on an empty sequence. -/
def pyMax (l : List ℚ) : Except Unit ℚ :=
  match l with
  | [] => .error ()
  | x :: xs => .ok (xs.foldl max x)

end Focus

/-!
## `difflib.SequenceMatcher(None, a, b).ratio()`

Faithful embedding of the CPython algorithm with `isjunk = None` (so the
`bjunk` set is empty) and the default `autojunk = True` (so, when
`len(b) >= 200`, characters occurring more than `len(b) // 100 + 1` times are
dropped from the `b2j` index).
-/

namespace Difflib

/-- Indexing `s[n]` (all accesses in the algorithm are guarded in range). -/
def aGet (l : List Char) (n : ℕ) : Char := l.getD n (Char.ofNat 0)

/-- Number of occurrences of `c` in `b`. -/
def countOcc (b : List Char) (c : Char) : ℕ := (b.filter (fun x => x == c)).length

/-- The `autojunk` "popular" test applied while building `b2j`. -/
def isPopular (b : List Char) (c : Char) : Bool :=
  decide (200 ≤ b.length) && decide (b.length / 100 + 1 < countOcc b c)

/-- `self.b2j[c]`: positions of `c` in `b`, ascending; popular characters have
been deleted from the dict, which reads back as the empty list. -/
def b2j (b : List Char) (c : Char) : List ℕ :=
  if isPopular b c then []
  else (List.range b.length).filter (fun j => aGet b j == c)

/-- Inner loop of `find_longest_match` over `b2j.get(a[i], [])`: builds
`newj2len` and updates the running best.  `if j < blo: continue`;
`if j >= bhi: break`; `k = newj2len[j] = j2len.get(j-1, 0) + 1` (the lookup at
`j - 1 = -1` when `j = 0` misses, hence the `j = 0` guard); a strictly larger
`k` moves the best to `(i-k+1, j-k+1, k)`. -/
def innerLoop (oldm : ℕ → ℕ) (i blo bhi : ℕ) :
    List ℕ → (ℕ → ℕ) → ℕ × ℕ × ℕ → ((ℕ → ℕ) × (ℕ × ℕ × ℕ))
  | [], newm, best => (newm, best)
  | j :: rest, newm, best =>
    if j < blo then innerLoop oldm i blo bhi rest newm best
    else if bhi ≤ j then (newm, best)
    else
      let k := (if j = 0 then 0 else oldm (j - 1)) + 1
      let newm' : ℕ → ℕ := fun j' => if j' = j then k else newm j'
      let best' := if best.2.2 < k then (i + 1 - k, j + 1 - k, k) else best
      innerLoop oldm i blo bhi rest newm' best'

/-- One iteration of `for i in range(alo, ahi)`: run the inner loop on row `i`
with a fresh `newj2len`, then `j2len = newj2len`. -/
def rowStep (a : List Char) (b2jf : Char → List ℕ) (blo bhi : ℕ)
    (st : (ℕ → ℕ) × (ℕ × ℕ × ℕ)) (i : ℕ) : (ℕ → ℕ) × (ℕ × ℕ × ℕ) :=
  innerLoop st.1 i blo bhi (b2jf (aGet a i)) (fun _ => 0) st.2

/-- The dynamic-programming phase of `find_longest_match`: fold the rows
`alo, …, ahi-1` starting from `j2len = {}`, `(besti, bestj, bestsize) =
(alo, blo, 0)`. -/
def dpPhase (a : List Char) (b2jf : Char → List ℕ) (alo ahi blo bhi : ℕ) :
    (ℕ → ℕ) × (ℕ × ℕ × ℕ) :=
  (List.range' alo (ahi - alo)).foldl (rowStep a b2jf blo bhi)
    ((fun _ => 0), (alo, blo, 0))

/-- A backward `while` extension: while `besti > alo and bestj > blo and
P(besti-1, bestj-1)`, move the block one to the left.  Structural recursion on
`besti`, which the loop decrements while it stays above `alo`. -/
def extBack (P : ℕ → ℕ → Bool) (alo blo : ℕ) : ℕ → ℕ → ℕ → ℕ × ℕ × ℕ
  | 0, j, k => (0, j, k)
  | i + 1, j, k =>
    if alo < i + 1 ∧ blo < j ∧ P i (j - 1) then extBack P alo blo i (j - 1) (k + 1)
    else (i + 1, j, k)

/-- Body of a forward `while` extension, recursing on the exact iteration
count `ahi - (besti + bestsize)`: while `besti+bestsize < ahi and
bestj+bestsize < bhi and P(besti+bestsize, bestj+bestsize)`, grow the size.
When the count hits `0` the first guard is false, so returning `k` agrees with
the loop. -/
def extFwdGo (P : ℕ → ℕ → Bool) (ahi bhi i j : ℕ) : ℕ → ℕ → ℕ
  | 0, k => k
  | fuel + 1, k =>
    if i + k < ahi ∧ j + k < bhi ∧ P (i + k) (j + k) then
      extFwdGo P ahi bhi i j fuel (k + 1)
    else k

/-- A forward `while` extension starting from size `k`. -/
def extFwd (P : ℕ → ℕ → Bool) (ahi bhi i j k : ℕ) : ℕ :=
  extFwdGo P ahi bhi i j (ahi - (i + k)) k

/-- `find_longest_match(alo, ahi, blo, bhi)`.  `junk` is `self.bjunk`; with
`isjunk = None` it is empty, but the four extension loops are kept as in the
source.  Returns `(besti, bestj, bestsize)`. -/
def flm (a b : List Char) (b2jf : Char → List ℕ) (junk : Char → Bool)
    (alo ahi blo bhi : ℕ) : ℕ × ℕ × ℕ :=
  let dp := (dpPhase a b2jf alo ahi blo bhi).2
  let Pnj : ℕ → ℕ → Bool := fun ia jb => !junk (aGet b jb) && (aGet a ia == aGet b jb)
  let Pj : ℕ → ℕ → Bool := fun ia jb => junk (aGet b jb) && (aGet a ia == aGet b jb)
  let e1 := extBack Pnj alo blo dp.1 dp.2.1 dp.2.2
  let k2 := extFwd Pnj ahi bhi e1.1 e1.2.1 e1.2.2
  let e3 := extBack Pj alo blo e1.1 e1.2.1 k2
  let k4 := extFwd Pj ahi bhi e3.1 e3.2.1 e3.2.2
  (e3.1, e3.2.1, k4)

/-- Invariant on a `j2len` map before processing row `i`: every stored chain
length is at most the number of processed rows (`i - alo`) and at most the
distance from `blo` (`j + 1 - blo`). -/
def MInv (alo blo : ℕ) (m : ℕ → ℕ) (i : ℕ) : Prop :=
  ∀ j', (m j' = 0 ∨ m j' + blo ≤ j' + 1) ∧ m j' + alo ≤ i

/-- Invariant on the running best block. -/
def BInv (alo ahi blo bhi : ℕ) (best : ℕ × ℕ × ℕ) : Prop :=
  alo ≤ best.1 ∧ blo ≤ best.2.1 ∧ best.1 + best.2.2 ≤ ahi ∧ best.2.1 + best.2.2 ≤ bhi

theorem innerLoop_cons (oldm : ℕ → ℕ) (i blo bhi j : ℕ) (rest : List ℕ)
    (newm : ℕ → ℕ) (best : ℕ × ℕ × ℕ) (h1 : ¬ j < blo) (h2 : ¬ bhi ≤ j) :
    innerLoop oldm i blo bhi (j :: rest) newm best =
      innerLoop oldm i blo bhi rest
        (fun j' => if j' = j then (if j = 0 then 0 else oldm (j - 1)) + 1 else newm j')
        (if best.2.2 < (if j = 0 then 0 else oldm (j - 1)) + 1
         then (i + 1 - ((if j = 0 then 0 else oldm (j - 1)) + 1),
               j + 1 - ((if j = 0 then 0 else oldm (j - 1)) + 1),
               (if j = 0 then 0 else oldm (j - 1)) + 1)
         else best) := by
  simp only [innerLoop, if_neg h1, if_neg h2]

theorem innerLoop_bounds (oldm : ℕ → ℕ) (i blo bhi alo ahi : ℕ)
    (hi : alo ≤ i) (hia : i < ahi)
    (hold : MInv alo blo oldm i) :
    ∀ (L : List ℕ) (newm : ℕ → ℕ) (best : ℕ × ℕ × ℕ),
      MInv alo blo newm (i + 1) → BInv alo ahi blo bhi best →
      MInv alo blo (innerLoop oldm i blo bhi L newm best).1 (i + 1) ∧
      BInv alo ahi blo bhi (innerLoop oldm i blo bhi L newm best).2 := by
  intro L
  induction L with
  | nil => intro newm best hm hb; exact ⟨hm, hb⟩
  | cons j rest ih =>
    intro newm best hm hb
    by_cases h1 : j < blo
    · simpa [innerLoop, h1] using ih newm best hm hb
    by_cases h2 : bhi ≤ j
    · simpa [innerLoop, h1, h2] using ⟨hm, hb⟩
    have hblo : blo ≤ j := by omega
    have hbhi : j < bhi := by omega
    have hkblo : (if j = 0 then 0 else oldm (j - 1)) + 1 + blo ≤ j + 1 := by
      rcases Nat.eq_zero_or_pos j with hj0 | hj0
      · subst hj0; simp; omega
      · have hne : j ≠ 0 := by omega
        rcases (hold (j - 1)).1 with h | h
        · simp [hne, h]; omega
        · simp only [if_neg hne]; omega
    have hkalo : (if j = 0 then 0 else oldm (j - 1)) + 1 + alo ≤ i + 1 := by
      rcases Nat.eq_zero_or_pos j with hj0 | hj0
      · subst hj0; simp; omega
      · have hne : j ≠ 0 := by omega
        have := (hold (j - 1)).2
        simp only [if_neg hne]; omega
    rw [innerLoop_cons oldm i blo bhi j rest newm best h1 h2]
    apply ih
    · intro j'
      by_cases hj' : j' = j
      · subst hj'; simp; omega
      · simp only [if_neg hj']; exact hm j'
    · by_cases hbig : best.2.2 < (if j = 0 then 0 else oldm (j - 1)) + 1
      · rw [if_pos hbig]
        refine ⟨?_, ?_, ?_, ?_⟩ <;> simp only [] <;> omega
      · rw [if_neg hbig]; exact hb

theorem dpPhase_bounds (a : List Char) (b2jf : Char → List ℕ) (blo bhi : ℕ)
    (alo ahi : ℕ) (hab : alo ≤ ahi) (hbb : blo ≤ bhi) :
    BInv alo ahi blo bhi (dpPhase a b2jf alo ahi blo bhi).2 := by
  suffices h : ∀ (n start : ℕ) (m : ℕ → ℕ) (best : ℕ × ℕ × ℕ),
      alo ≤ start → start + n ≤ ahi →
      MInv alo blo m start → BInv alo ahi blo bhi best →
      BInv alo ahi blo bhi
        (((List.range' start n).foldl (rowStep a b2jf blo bhi) (m, best)).2) by
    unfold dpPhase
    exact h (ahi - alo) alo (fun _ => 0) (alo, blo, 0) (Nat.le_refl _) (by omega)
      (fun j' => ⟨Or.inl rfl, by simp⟩)
      ⟨Nat.le_refl _, Nat.le_refl _, by simpa using hab, by simpa using hbb⟩
  intro n
  induction n with
  | zero => intro start m best _ _ _ hb; simpa using hb
  | succ p ih =>
    intro start m best hs hsn hm hb
    have hr : List.range' start (p + 1) = start :: List.range' (start + 1) p :=
      List.range'_succ start p 1
    rw [hr, List.foldl_cons]
    have hrow := innerLoop_bounds m start blo bhi alo ahi hs (by omega) hm
      (b2jf (aGet a start)) (fun _ => 0) best
      (fun j' => ⟨Or.inl rfl, by simp; omega⟩) hb
    have hrs : rowStep a b2jf blo bhi (m, best) start
        = innerLoop m start blo bhi (b2jf (aGet a start)) (fun _ => 0) best := rfl
    rw [hrs]
    rcases hP : innerLoop m start blo bhi (b2jf (aGet a start)) (fun _ => 0) best
      with ⟨m', best'⟩
    rw [hP] at hrow
    exact ih (start + 1) m' best' (by omega) (by omega) hrow.1 hrow.2

theorem extBack_spec (P : ℕ → ℕ → Bool) (alo blo : ℕ) :
    ∀ (i j k : ℕ), alo ≤ i → blo ≤ j →
      alo ≤ (extBack P alo blo i j k).1 ∧ blo ≤ (extBack P alo blo i j k).2.1 ∧
      (extBack P alo blo i j k).1 + (extBack P alo blo i j k).2.2 = i + k ∧
      (extBack P alo blo i j k).2.1 + (extBack P alo blo i j k).2.2 = j + k := by
  intro i
  induction i with
  | zero => intro j k hi hj; exact ⟨hi, hj, rfl, rfl⟩
  | succ p ih =>
    intro j k hi hj
    rw [extBack]
    by_cases h : alo < p + 1 ∧ blo < j ∧ P p (j - 1) = true
    · rw [if_pos h]
      have := ih (j - 1) (k + 1) (by omega) (by omega)
      refine ⟨this.1, this.2.1, by omega, by omega⟩
    · rw [if_neg h]
      exact ⟨hi, hj, rfl, rfl⟩

theorem extFwdGo_spec (P : ℕ → ℕ → Bool) (ahi bhi i j : ℕ) :
    ∀ (fuel k : ℕ), i + k ≤ ahi → j + k ≤ bhi →
      k ≤ extFwdGo P ahi bhi i j fuel k ∧ i + extFwdGo P ahi bhi i j fuel k ≤ ahi ∧
      j + extFwdGo P ahi bhi i j fuel k ≤ bhi := by
  intro fuel
  induction fuel with
  | zero => intro k h1 h2; exact ⟨Nat.le_refl _, h1, h2⟩
  | succ p ih =>
    intro k h1 h2
    rw [extFwdGo]
    by_cases hc : i + k < ahi ∧ j + k < bhi ∧ P (i + k) (j + k) = true
    · rw [if_pos hc]
      have := ih (k + 1) (by omega) (by omega)
      exact ⟨by omega, this.2.1, this.2.2⟩
    · rw [if_neg hc]
      exact ⟨Nat.le_refl _, h1, h2⟩

theorem extFwd_spec (P : ℕ → ℕ → Bool) (ahi bhi i j : ℕ) (k : ℕ)
    (h1 : i + k ≤ ahi) (h2 : j + k ≤ bhi) :
    k ≤ extFwd P ahi bhi i j k ∧ i + extFwd P ahi bhi i j k ≤ ahi ∧
    j + extFwd P ahi bhi i j k ≤ bhi :=
  extFwdGo_spec P ahi bhi i j (ahi - (i + k)) k h1 h2

theorem flm_bounds (a b : List Char) (b2jf : Char → List ℕ) (junk : Char → Bool)
    (alo ahi blo bhi : ℕ) (hab : alo ≤ ahi) (hbb : blo ≤ bhi) :
    alo ≤ (flm a b b2jf junk alo ahi blo bhi).1 ∧
    blo ≤ (flm a b b2jf junk alo ahi blo bhi).2.1 ∧
    (flm a b b2jf junk alo ahi blo bhi).1 + (flm a b b2jf junk alo ahi blo bhi).2.2 ≤ ahi ∧
    (flm a b b2jf junk alo ahi blo bhi).2.1 + (flm a b b2jf junk alo ahi blo bhi).2.2 ≤ bhi := by
  have hdp := dpPhase_bounds a b2jf blo bhi alo ahi hab hbb
  unfold flm
  dsimp only
  set dp := (dpPhase a b2jf alo ahi blo bhi).2 with hdpdef
  obtain ⟨hd1, hd2, hd3, hd4⟩ := hdp
  set Pnj : ℕ → ℕ → Bool := fun ia jb => !junk (aGet b jb) && (aGet a ia == aGet b jb)
    with hPnj
  set Pj : ℕ → ℕ → Bool := fun ia jb => junk (aGet b jb) && (aGet a ia == aGet b jb)
    with hPj
  have he1 := extBack_spec Pnj alo blo dp.1 dp.2.1 dp.2.2 hd1 hd2
  set e1 := extBack Pnj alo blo dp.1 dp.2.1 dp.2.2 with he1def
  have hk2 := extFwd_spec Pnj ahi bhi e1.1 e1.2.1 e1.2.2 (by omega) (by omega)
  set k2 := extFwd Pnj ahi bhi e1.1 e1.2.1 e1.2.2 with hk2def
  have he3 := extBack_spec Pj alo blo e1.1 e1.2.1 k2 he1.1 he1.2.1
  set e3 := extBack Pj alo blo e1.1 e1.2.1 k2 with he3def
  have hk4 := extFwd_spec Pj ahi bhi e3.1 e3.2.1 e3.2.2 (by omega) (by omega)
  exact ⟨he3.1, he3.2.1, by omega, by omega⟩

/-- `get_matching_blocks`, recursively (CPython uses an explicit stack, which
visits exactly the same ranges; only the multiset of blocks matters for
`ratio`, and it is the same multiset).  `fuel` is an upper bound on the
recursion depth; every recursive call strictly decreases
`(ahi - alo) + (bhi - blo)` (by `flm_bounds`), so any fuel above that measure
computes the full recursion — see `mbAux_fuel_eq`. -/
def mbAux (a b : List Char) (b2jf : Char → List ℕ) (junk : Char → Bool) :
    ℕ → ℕ → ℕ → ℕ → ℕ → List (ℕ × ℕ × ℕ)
  | 0, _, _, _, _ => []
  | fuel + 1, alo, ahi, blo, bhi =>
    if alo ≤ ahi ∧ blo ≤ bhi then
      if (flm a b b2jf junk alo ahi blo bhi).2.2 = 0 then []
      else
        (if alo < (flm a b b2jf junk alo ahi blo bhi).1 ∧
            blo < (flm a b b2jf junk alo ahi blo bhi).2.1 then
          mbAux a b b2jf junk fuel alo (flm a b b2jf junk alo ahi blo bhi).1
            blo (flm a b b2jf junk alo ahi blo bhi).2.1
         else []) ++
        flm a b b2jf junk alo ahi blo bhi ::
        (if (flm a b b2jf junk alo ahi blo bhi).1 +
              (flm a b b2jf junk alo ahi blo bhi).2.2 < ahi ∧
            (flm a b b2jf junk alo ahi blo bhi).2.1 +
              (flm a b b2jf junk alo ahi blo bhi).2.2 < bhi then
          mbAux a b b2jf junk fuel
            ((flm a b b2jf junk alo ahi blo bhi).1 +
              (flm a b b2jf junk alo ahi blo bhi).2.2) ahi
            ((flm a b b2jf junk alo ahi blo bhi).2.1 +
              (flm a b b2jf junk alo ahi blo bhi).2.2) bhi
         else [])
    else []

/-- `matches = sum(triple[-1] for triple in blocks)`. -/
def sumSizes (l : List (ℕ × ℕ × ℕ)) : ℕ := (l.map (fun t => t.2.2)).sum

/-- `SequenceMatcher(None, a, b).ratio()`, including `_calculate_ratio`'s
`length == 0` convention.  The junk set is empty (`isjunk = None`). -/
def ratio (a b : List Char) : ℚ :=
  let m := sumSizes (mbAux a b (b2j b) (fun _ => false)
    (a.length + b.length + 1) 0 a.length 0 b.length)
  if a.length + b.length = 0 then 1
  else (2 * m : ℚ) / ((a.length : ℚ) + (b.length : ℚ))

/-- Above the recursion measure, the fuel does not matter. -/
theorem mbAux_fuel_eq (a b : List Char) (b2jf : Char → List ℕ) (junk : Char → Bool) :
    ∀ (f1 f2 alo ahi blo bhi : ℕ),
      (ahi - alo) + (bhi - blo) < f1 → (ahi - alo) + (bhi - blo) < f2 →
      mbAux a b b2jf junk f1 alo ahi blo bhi = mbAux a b b2jf junk f2 alo ahi blo bhi := by
  intro f1
  induction f1 with
  | zero => intro f2 alo ahi blo bhi h1 h2; omega
  | succ p ih =>
    intro f2 alo ahi blo bhi h1 h2
    rcases f2 with _ | q
    · omega
    rw [mbAux, mbAux]
    by_cases hv : alo ≤ ahi ∧ blo ≤ bhi
    · rw [if_pos hv, if_pos hv]
      by_cases hk : (flm a b b2jf junk alo ahi blo bhi).2.2 = 0
      · rw [if_pos hk, if_pos hk]
      · rw [if_neg hk, if_neg hk]
        obtain ⟨hb1, hb2, hb3, hb4⟩ :=
          flm_bounds a b b2jf junk alo ahi blo bhi hv.1 hv.2
        congr 1
        · by_cases hc : alo < (flm a b b2jf junk alo ahi blo bhi).1 ∧
              blo < (flm a b b2jf junk alo ahi blo bhi).2.1
          · rw [if_pos hc, if_pos hc]
            exact ih q _ _ _ _ (by omega) (by omega)
          · rw [if_neg hc, if_neg hc]
        · congr 1
          by_cases hc2 : (flm a b b2jf junk alo ahi blo bhi).1 +
                (flm a b b2jf junk alo ahi blo bhi).2.2 < ahi ∧
              (flm a b b2jf junk alo ahi blo bhi).2.1 +
                (flm a b b2jf junk alo ahi blo bhi).2.2 < bhi
          · rw [if_pos hc2, if_pos hc2]
            exact ih q _ _ _ _ (by omega) (by omega)
          · rw [if_neg hc2, if_neg hc2]
    · rw [if_neg hv, if_neg hv]

theorem sumSizes_append (l1 l2 : List (ℕ × ℕ × ℕ)) :
    sumSizes (l1 ++ l2) = sumSizes l1 + sumSizes l2 := by
  simp [sumSizes]

/-- The total size of the matching blocks found inside a range is bounded by
both side lengths of the range. -/
theorem mbAux_sum_le (a b : List Char) (b2jf : Char → List ℕ) (junk : Char → Bool) :
    ∀ (fuel alo ahi blo bhi : ℕ),
      sumSizes (mbAux a b b2jf junk fuel alo ahi blo bhi) ≤ ahi - alo ∧
      sumSizes (mbAux a b b2jf junk fuel alo ahi blo bhi) ≤ bhi - blo := by
  intro fuel
  induction fuel with
  | zero => intro alo ahi blo bhi; simp [mbAux, sumSizes]
  | succ p ih =>
    intro alo ahi blo bhi
    rw [mbAux]
    by_cases hv : alo ≤ ahi ∧ blo ≤ bhi
    · rw [if_pos hv]
      obtain ⟨hb1, hb2, hb3, hb4⟩ := flm_bounds a b b2jf junk alo ahi blo bhi hv.1 hv.2
      by_cases hk : (flm a b b2jf junk alo ahi blo bhi).2.2 = 0
      · rw [if_pos hk]; simp [sumSizes]
      · rw [if_neg hk]
        have hleft := ih alo (flm a b b2jf junk alo ahi blo bhi).1
          blo (flm a b b2jf junk alo ahi blo bhi).2.1
        have hright := ih ((flm a b b2jf junk alo ahi blo bhi).1 +
            (flm a b b2jf junk alo ahi blo bhi).2.2) ahi
          ((flm a b b2jf junk alo ahi blo bhi).2.1 +
            (flm a b b2jf junk alo ahi blo bhi).2.2) bhi
        rw [sumSizes_append]
        have hcons : ∀ (x : ℕ × ℕ × ℕ) (l : List (ℕ × ℕ × ℕ)),
            sumSizes (x :: l) = x.2.2 + sumSizes l := by
          intro x l; simp [sumSizes]
        rw [hcons]
        have h0 : sumSizes ([] : List (ℕ × ℕ × ℕ)) = 0 := rfl
        by_cases hc : alo < (flm a b b2jf junk alo ahi blo bhi).1 ∧
            blo < (flm a b b2jf junk alo ahi blo bhi).2.1 <;>
        by_cases hc2 : (flm a b b2jf junk alo ahi blo bhi).1 +
              (flm a b b2jf junk alo ahi blo bhi).2.2 < ahi ∧
            (flm a b b2jf junk alo ahi blo bhi).2.1 +
              (flm a b b2jf junk alo ahi blo bhi).2.2 < bhi
        · rw [if_pos hc, if_pos hc2]; constructor <;> omega
        · rw [if_pos hc, if_neg hc2, h0]; constructor <;> omega
        · rw [if_neg hc, if_pos hc2, h0]; constructor <;> omega
        · rw [if_neg hc, if_neg hc2, h0]; constructor <;> omega
    · rw [if_neg hv]; simp [sumSizes]

end Difflib

namespace Difflib

theorem mem_b2j (b : List Char) (c : Char) (j : ℕ) :
    j ∈ b2j b c ↔ isPopular b c = false ∧ j < b.length ∧ aGet b j = c := by
  unfold b2j
  by_cases hp : isPopular b c = true
  · simp [hp]
  · have hp' : isPopular b c = false := by simpa using hp
    rw [if_neg hp]
    simp [List.mem_filter, List.mem_range, hp']

theorem b2j_sorted (b : List Char) (c : Char) : (b2j b c).Pairwise (· < ·) := by
  unfold b2j
  by_cases hp : isPopular b c
  · simp [hp]
  · simp only [hp, if_false]
    exact (List.pairwise_lt_range b.length).filter _

/-- Chain lengths of the `j2len` dynamic program when both sequences are the
same string `s` and the ranges coincide (`alo = blo = lo`, `ahi = bhi = hi`):
`cl i j` is the value `j2len[j]` holds right after row `i` is processed. -/
def cl (s : List Char) (lo hi : ℕ) : ℕ → ℕ → ℕ
  | 0, j => if lo ≤ j ∧ j < hi ∧ j ∈ b2j s (aGet s 0) then 1 else 0
  | i + 1, j =>
    if lo ≤ j ∧ j < hi ∧ j ∈ b2j s (aGet s (i + 1)) then
      (if lo < i + 1 ∧ j ≠ 0 then cl s lo hi i (j - 1) else 0) + 1
    else 0

theorem cl_eq (s : List Char) (lo hi i j : ℕ) :
    cl s lo hi i j =
      if lo ≤ j ∧ j < hi ∧ j ∈ b2j s (aGet s i) then
        (if lo < i ∧ j ≠ 0 then cl s lo hi (i - 1) (j - 1) else 0) + 1
      else 0 := by
  rcases i with _ | p
  · rw [cl]
    by_cases hc : lo ≤ j ∧ j < hi ∧ j ∈ b2j s (aGet s 0)
    · rw [if_pos hc, if_pos hc, if_neg (by omega)]
    · rw [if_neg hc, if_neg hc]
  · rw [cl]; simp

theorem cl_pos_cond (s : List Char) (lo hi i j : ℕ)
    (h : 0 < cl s lo hi i j) :
    lo ≤ j ∧ j < hi ∧ j ∈ b2j s (aGet s i) := by
  by_contra hc
  rw [cl_eq, if_neg hc] at h
  omega

/-- Key inequality: in the diagonal setting a chain ending at `(i, j)` is no
longer than the diagonal chain ending at `(min i j, min i j)`. -/
theorem cl_le_diag (s : List Char) (lo hi : ℕ) (hhi : hi ≤ s.length) :
    ∀ i j, lo ≤ i → i < hi → cl s lo hi i j ≤ cl s lo hi (min i j) (min i j) := by
  intro i
  induction i using Nat.strong_induction_on with
  | _ i ih =>
    intro j hloi hihi
    rw [cl_eq s lo hi i j]
    by_cases hcond : lo ≤ j ∧ j < hi ∧ j ∈ b2j s (aGet s i)
    · rw [if_pos hcond]
      obtain ⟨hjlo, hjhi, hjmem⟩ := hcond
      obtain ⟨hpop, hjlen, hchar⟩ := (mem_b2j s (aGet s i) j).1 hjmem
      have hpopj : isPopular s (aGet s j) = false := by rw [hchar]; exact hpop
      have hcondm : lo ≤ min i j ∧ min i j < hi ∧ min i j ∈ b2j s (aGet s (min i j)) := by
        rcases Nat.le_total i j with hij | hij
        · rw [min_eq_left hij]
          exact ⟨hloi, hihi, (mem_b2j s (aGet s i) i).2 ⟨hpop, by omega, rfl⟩⟩
        · rw [min_eq_right hij]
          exact ⟨hjlo, hjhi, (mem_b2j s (aGet s j) j).2 ⟨hpopj, hjlen, rfl⟩⟩
      rw [cl_eq s lo hi (min i j) (min i j), if_pos hcondm]
      have hstep : (if lo < i ∧ j ≠ 0 then cl s lo hi (i - 1) (j - 1) else 0) ≤
          (if lo < min i j ∧ min i j ≠ 0 then cl s lo hi (min i j - 1) (min i j - 1)
           else 0) := by
        by_cases hin : lo < i ∧ j ≠ 0
        · rw [if_pos hin]
          by_cases hin2 : lo < min i j ∧ min i j ≠ 0
          · rw [if_pos hin2]
            have hmin : min (i - 1) (j - 1) = min i j - 1 := by omega
            have := ih (i - 1) (by omega) (j - 1) (by omega) (by omega)
            rw [hmin] at this
            exact this
          · rw [if_neg hin2]
            have hjlo' : j = lo := by omega
            have : cl s lo hi (i - 1) (j - 1) = 0 := by
              rw [cl_eq, if_neg]
              rintro ⟨h1, -⟩
              omega
            omega
        · rw [if_neg hin]; omega
      omega
    · rw [if_neg hcond]
      exact Nat.zero_le _

end Difflib

namespace Difflib

/-- Processing one row of the DP in the diagonal setting (`a = b = s`,
`alo = blo = lo`, `ahi = bhi = hi`): the new `j2len` is exactly `cl i ·`, the
best block stays diagonal, and its size dominates every diagonal chain through
the processed rows. -/
theorem innerLoop_diag (s : List Char) (lo hi : ℕ) (hhi : hi ≤ s.length)
    (i : ℕ) (hloi : lo ≤ i) (hihi : i < hi)
    (oldm : ℕ → ℕ)
    (hold : ∀ j', oldm j' = if lo < i then cl s lo hi (i - 1) j' else 0) :
    ∀ (L Pdone : List ℕ) (newm : ℕ → ℕ) (best : ℕ × ℕ × ℕ),
      b2j s (aGet s i) = Pdone ++ L →
      (∀ j', newm j' = if lo ≤ j' ∧ j' < hi ∧ j' ∈ Pdone then cl s lo hi i j' else 0) →
      best.1 = best.2.1 →
      (∀ r, lo ≤ r → r < i → cl s lo hi r r ≤ best.2.2) →
      (∀ j' ∈ Pdone, lo ≤ j' → j' < hi → cl s lo hi i j' ≤ best.2.2) →
      (∀ j', (innerLoop oldm i lo hi L newm best).1 j' = cl s lo hi i j') ∧
      (innerLoop oldm i lo hi L newm best).2.1 =
        (innerLoop oldm i lo hi L newm best).2.2.1 ∧
      (∀ r, lo ≤ r → r < i + 1 →
        cl s lo hi r r ≤ (innerLoop oldm i lo hi L newm best).2.2.2) := by
  intro L
  induction L with
  | nil =>
    intro Pdone newm best hsplit hm hd hb1 hb2
    refine ⟨?_, hd, ?_⟩
    · intro j'
      show newm j' = cl s lo hi i j'
      rw [hm j']
      by_cases hg : lo ≤ j' ∧ j' < hi ∧ j' ∈ Pdone
      · rw [if_pos hg]
      · rw [if_neg hg, cl_eq, if_neg]
        intro hc
        exact hg ⟨hc.1, hc.2.1, by
          have hmem := hc.2.2
          rw [hsplit] at hmem
          simpa using hmem⟩
    · intro r hr1 hr2
      show cl s lo hi r r ≤ best.2.2
      rcases Nat.lt_or_ge r i with hri | hri
      · exact hb1 r hr1 hri
      · have hri' : r = i := by omega
        subst hri'
        by_cases hpos : 0 < cl s lo hi r r
        · have hc := cl_pos_cond s lo hi r r hpos
          apply hb2 r _ hc.1 hc.2.1
          have hmem := hc.2.2
          rw [hsplit] at hmem
          simpa using hmem
        · omega
  | cons j rest ih =>
    intro Pdone newm best hsplit hm hd hb1 hb2
    have hsort := b2j_sorted s (aGet s i)
    rw [hsplit] at hsort
    obtain ⟨hsortP, hsortL, hcross⟩ := List.pairwise_append.mp hsort
    obtain ⟨hjrest, hrest⟩ := List.pairwise_cons.mp hsortL
    by_cases h1 : j < lo
    · have hstep : innerLoop oldm i lo hi (j :: rest) newm best
          = innerLoop oldm i lo hi rest newm best := by
        simp [innerLoop, h1]
      rw [hstep]
      apply ih (Pdone ++ [j]) newm best
      · rw [hsplit]; simp
      · intro j'
        rw [hm j']
        by_cases hj' : j' = j
        · subst hj'
          rw [if_neg (by omega), if_neg (by omega)]
        · by_cases hg : lo ≤ j' ∧ j' < hi ∧ j' ∈ Pdone
          · rw [if_pos hg,
              if_pos (show lo ≤ j' ∧ j' < hi ∧ j' ∈ Pdone ++ [j] from
                ⟨hg.1, hg.2.1, by simp [hg.2.2]⟩)]
          · rw [if_neg hg, if_neg]
            intro hc
            refine hg ⟨hc.1, hc.2.1, ?_⟩
            have hmem := hc.2.2
            simp only [List.mem_append, List.mem_singleton] at hmem
            tauto
      · exact hd
      · exact hb1
      · intro j' hj' hlo' hhi'
        rcases List.mem_append.mp hj' with hin | hin
        · exact hb2 j' hin hlo' hhi'
        · have : j' = j := by simpa using hin
          omega
    by_cases h2 : hi ≤ j
    · have hstep : innerLoop oldm i lo hi (j :: rest) newm best = (newm, best) := by
        simp [innerLoop, h1, h2]
      rw [hstep]
      refine ⟨?_, hd, ?_⟩
      · intro j'
        show newm j' = cl s lo hi i j'
        rw [hm j']
        by_cases hg : lo ≤ j' ∧ j' < hi ∧ j' ∈ Pdone
        · rw [if_pos hg]
        · rw [if_neg hg, cl_eq, if_neg]
          intro hc
          refine hg ⟨hc.1, hc.2.1, ?_⟩
          have hmem := hc.2.2
          rw [hsplit] at hmem
          rcases List.mem_append.mp hmem with hin | hin
          · exact hin
          · exfalso
            rcases List.mem_cons.mp hin with hin' | hin'
            · omega
            · have := hjrest j' hin'
              omega
      · intro r hr1 hr2
        show cl s lo hi r r ≤ best.2.2
        rcases Nat.lt_or_ge r i with hri | hri
        · exact hb1 r hr1 hri
        · have hri' : r = i := by omega
          subst hri'
          by_cases hpos : 0 < cl s lo hi r r
          · have hc := cl_pos_cond s lo hi r r hpos
            apply hb2 r _ hc.1 hc.2.1
            have hmem := hc.2.2
            rw [hsplit] at hmem
            rcases List.mem_append.mp hmem with hin | hin
            · exact hin
            · exfalso
              rcases List.mem_cons.mp hin with hin' | hin'
              · omega
              · have := hjrest r hin'
                omega
          · omega
    -- processed column: lo ≤ j < hi
    have hjlo : lo ≤ j := by omega
    have hjhi : j < hi := by omega
    have hjmem : j ∈ b2j s (aGet s i) := by rw [hsplit]; simp
    have hcond : lo ≤ j ∧ j < hi ∧ j ∈ b2j s (aGet s i) := ⟨hjlo, hjhi, hjmem⟩
    have hK : (if j = 0 then 0 else oldm (j - 1)) + 1 = cl s lo hi i j := by
      rw [cl_eq s lo hi i j, if_pos hcond]
      congr 1
      by_cases hj0 : j = 0
      · rw [if_pos hj0, if_neg (by omega)]
      · rw [if_neg hj0, hold (j - 1)]
        by_cases hloi' : lo < i
        · rw [if_pos hloi', if_pos ⟨hloi', hj0⟩]
        · rw [if_neg hloi', if_neg (by tauto)]
    rw [innerLoop_cons oldm i lo hi j rest newm best (by omega) (by omega)]
    have hdiag_update : best.2.2 < (if j = 0 then 0 else oldm (j - 1)) + 1 → j = i := by
      intro hbig
      rw [hK] at hbig
      by_contra hne
      rcases Nat.lt_or_ge j i with hji | hji
      · have hle := cl_le_diag s lo hi hhi i j hloi hihi
        rw [min_eq_right (by omega)] at hle
        have := hb1 j hjlo hji
        omega
      · have hij : i < j := by omega
        have hle := cl_le_diag s lo hi hhi i j hloi hihi
        rw [min_eq_left (by omega)] at hle
        obtain ⟨hpop, hjlen, hchar⟩ := (mem_b2j s (aGet s i) j).1 hjmem
        have himem : i ∈ b2j s (aGet s i) :=
          (mem_b2j s (aGet s i) i).2 ⟨hpop, by omega, rfl⟩
        have hiPdone : i ∈ Pdone := by
          rw [hsplit] at himem
          rcases List.mem_append.mp himem with hin | hin
          · exact hin
          · exfalso
            rcases List.mem_cons.mp hin with hin' | hin'
            · omega
            · have := hjrest i hin'
              omega
        have := hb2 i hiPdone hloi hihi
        omega
    have hmnew : ∀ j',
        (fun j'' => if j'' = j then (if j = 0 then 0 else oldm (j - 1)) + 1
          else newm j'') j' =
        if lo ≤ j' ∧ j' < hi ∧ j' ∈ Pdone ++ [j] then cl s lo hi i j' else 0 := by
      intro j'
      dsimp only
      by_cases hj' : j' = j
      · rw [if_pos hj', hj',
          if_pos (show lo ≤ j ∧ j < hi ∧ j ∈ Pdone ++ [j] from ⟨hjlo, hjhi, by simp⟩)]
        exact hK
      · rw [if_neg hj', hm j']
        by_cases hg : lo ≤ j' ∧ j' < hi ∧ j' ∈ Pdone
        · rw [if_pos hg,
            if_pos (show lo ≤ j' ∧ j' < hi ∧ j' ∈ Pdone ++ [j] from
              ⟨hg.1, hg.2.1, by simp [hg.2.2]⟩)]
        · rw [if_neg hg, if_neg]
          intro hc
          refine hg ⟨hc.1, hc.2.1, ?_⟩
          have hmem := hc.2.2
          simp only [List.mem_append, List.mem_singleton] at hmem
          tauto
    have hsplit' : b2j s (aGet s i) = (Pdone ++ [j]) ++ rest := by
      rw [hsplit]; simp
    by_cases hbig : best.2.2 < (if j = 0 then 0 else oldm (j - 1)) + 1
    · have hji : j = i := hdiag_update hbig
      rw [if_pos hbig]
      apply ih (Pdone ++ [j]) _ _ hsplit' hmnew
      · show i + 1 - ((if j = 0 then 0 else oldm (j - 1)) + 1) =
          j + 1 - ((if j = 0 then 0 else oldm (j - 1)) + 1)
        rw [hji]
      · intro r hr1 hr2
        show cl s lo hi r r ≤ (if j = 0 then 0 else oldm (j - 1)) + 1
        have := hb1 r hr1 hr2
        omega
      · intro j' hj' hlo' hhi'
        show cl s lo hi i j' ≤ (if j = 0 then 0 else oldm (j - 1)) + 1
        rcases List.mem_append.mp hj' with hin | hin
        · have := hb2 j' hin hlo' hhi'
          omega
        · have hj'j : j' = j := by simpa using hin
          subst hj'j
          rw [← hK]
    · rw [if_neg hbig]
      apply ih (Pdone ++ [j]) _ _ hsplit' hmnew hd hb1
      intro j' hj' hlo' hhi'
      rcases List.mem_append.mp hj' with hin | hin
      · exact hb2 j' hin hlo' hhi'
      · have hj'j : j' = j := by simpa using hin
        subst hj'j
        rw [← hK]
        omega

end Difflib

namespace Difflib

/-- In the diagonal setting the best block after the DP phase is diagonal. -/
theorem dpPhase_diag (s : List Char) (lo hi : ℕ) (hlohi : lo ≤ hi)
    (hhi : hi ≤ s.length) :
    (dpPhase s (b2j s) lo hi lo hi).2.1 = (dpPhase s (b2j s) lo hi lo hi).2.2.1 := by
  suffices h : ∀ (n start : ℕ) (m : ℕ → ℕ) (best : ℕ × ℕ × ℕ),
      lo ≤ start → start + n ≤ hi →
      (∀ j', m j' = if lo < start then cl s lo hi (start - 1) j' else 0) →
      best.1 = best.2.1 →
      (∀ r, lo ≤ r → r < start → cl s lo hi r r ≤ best.2.2) →
      ((List.range' start n).foldl (rowStep s (b2j s) lo hi) (m, best)).2.1 =
        ((List.range' start n).foldl (rowStep s (b2j s) lo hi) (m, best)).2.2.1 by
    unfold dpPhase
    exact h (hi - lo) lo (fun _ => 0) (lo, lo, 0) (Nat.le_refl _) (by omega)
      (fun j' => by rw [if_neg (by omega)]) rfl (fun r h1 h2 => by omega)
  intro n
  induction n with
  | zero => intro start m best _ _ _ hd _; simpa using hd
  | succ p ih =>
    intro start m best hs hsn hm hd hb1
    have hr : List.range' start (p + 1) = start :: List.range' (start + 1) p :=
      List.range'_succ start p 1
    rw [hr, List.foldl_cons]
    have hrow := innerLoop_diag s lo hi hhi start hs (by omega) m hm
      (b2j s (aGet s start)) [] (fun _ => 0) best rfl
      (fun j' => by rw [if_neg (by simp)]) hd hb1
      (fun j' hj' _ _ => by simp at hj')
    have hrs : rowStep s (b2j s) lo hi (m, best) start
        = innerLoop m start lo hi (b2j s (aGet s start)) (fun _ => 0) best := rfl
    rw [hrs]
    rcases hP : innerLoop m start lo hi (b2j s (aGet s start)) (fun _ => 0) best
      with ⟨m', best'⟩
    rw [hP] at hrow
    apply ih (start + 1) m' best' (by omega) (by omega)
    · intro j'
      rw [if_pos (by omega)]
      have := hrow.1 j'
      simpa using this
    · exact hrow.2.1
    · intro r h1 h2
      exact hrow.2.2 r h1 (by omega)

theorem extBack_diag (P : ℕ → ℕ → Bool) (lo : ℕ) (hP : ∀ x, P x x = true) :
    ∀ i k, lo ≤ i → extBack P lo lo i i k = (lo, lo, k + (i - lo)) := by
  intro i
  induction i with
  | zero =>
    intro k h
    have hlo : lo = 0 := by omega
    subst hlo
    simp [extBack]
  | succ p ih =>
    intro k h
    by_cases hlo : lo < p + 1
    · rw [extBack, if_pos ⟨hlo, hlo, by simpa using hP p⟩]
      have heq := ih (k + 1) (by omega)
      rw [show p + 1 - 1 = p from rfl, heq]
      have harith : k + 1 + (p - lo) = k + (p + 1 - lo) := by omega
      rw [harith]
    · have hlo' : lo = p + 1 := by omega
      rw [extBack, if_neg (fun hc => absurd hc.1 (by omega))]
      subst hlo'
      simp

theorem extFwdGo_diag (P : ℕ → ℕ → Bool) (hi lo : ℕ) (hP : ∀ x, P x x = true) :
    ∀ fuel k, fuel = hi - (lo + k) → lo + k ≤ hi →
      extFwdGo P hi hi lo lo fuel k = hi - lo := by
  intro fuel
  induction fuel with
  | zero =>
    intro k hf h
    rw [extFwdGo]
    omega
  | succ p ih =>
    intro k hf h
    have hlt : lo + k < hi := by omega
    rw [extFwdGo, if_pos ⟨hlt, hlt, hP (lo + k)⟩]
    exact ih (k + 1) (by omega) (by omega)

theorem extBack_falseP (P : ℕ → ℕ → Bool) (alo blo : ℕ)
    (hP : ∀ x y, P x y = false) :
    ∀ i j k, extBack P alo blo i j k = (i, j, k) := by
  intro i j k
  rcases i with _ | p
  · rfl
  · rw [extBack, if_neg]
    rintro ⟨-, -, hc⟩
    rw [hP] at hc
    exact Bool.false_ne_true hc

theorem extFwd_stuck (P : ℕ → ℕ → Bool) (ahi bhi i j k : ℕ) (h : ahi ≤ i + k) :
    extFwd P ahi bhi i j k = k := by
  unfold extFwd
  rw [show ahi - (i + k) = 0 from by omega]
  rfl

/-- On a diagonal range of a string against itself, `find_longest_match`
returns the whole range: whatever the DP finds is diagonal, and the non-junk
extension loops then stretch it to both ends. -/
theorem flm_diag (s : List Char) (lo hi : ℕ) (hlohi : lo ≤ hi) (hhi : hi ≤ s.length) :
    flm s s (b2j s) (fun _ => false) lo hi lo hi = (lo, lo, hi - lo) := by
  have hdiag := dpPhase_diag s lo hi hlohi hhi
  have hbounds := dpPhase_bounds s (b2j s) lo hi lo hi hlohi hlohi
  obtain ⟨hd1, hd2, hd3, hd4⟩ := hbounds
  unfold flm
  dsimp only
  have hPnj : ∀ x,
      (fun ia jb => !(fun _ => false) (aGet s jb) && (aGet s ia == aGet s jb)) x x
        = true := by
    intro x; simp
  have hPj : ∀ x y,
      (fun ia jb => (fun _ => false) (aGet s jb) && (aGet s ia == aGet s jb)) x y
        = false := by
    intro x y; simp
  have he1 : extBack
      (fun ia jb => !(fun _ => false) (aGet s jb) && (aGet s ia == aGet s jb)) lo lo
      (dpPhase s (b2j s) lo hi lo hi).2.1 (dpPhase s (b2j s) lo hi lo hi).2.2.1
      (dpPhase s (b2j s) lo hi lo hi).2.2.2
      = (lo, lo, (dpPhase s (b2j s) lo hi lo hi).2.2.2 +
          ((dpPhase s (b2j s) lo hi lo hi).2.1 - lo)) := by
    rw [← hdiag]
    exact extBack_diag _ lo hPnj _ _ hd1
  rw [he1]
  have hk2 : extFwd
      (fun ia jb => !(fun _ => false) (aGet s jb) && (aGet s ia == aGet s jb)) hi hi
      lo lo ((dpPhase s (b2j s) lo hi lo hi).2.2.2 +
        ((dpPhase s (b2j s) lo hi lo hi).2.1 - lo)) = hi - lo := by
    unfold extFwd
    exact extFwdGo_diag _ hi lo hPnj _ _ rfl (by omega)
  rw [hk2]
  rw [extBack_falseP _ lo lo hPj lo lo (hi - lo)]
  rw [extFwd_stuck _ hi hi lo lo (hi - lo) (by omega)]

/-- `ratio(s, s) = 1.0`. -/
theorem ratio_self (s : List Char) : ratio s s = 1 := by
  unfold ratio
  dsimp only
  rcases Nat.eq_zero_or_pos s.length with h0 | hpos
  · rw [if_pos (by omega)]
  · rw [if_neg (by omega)]
    have hflm : flm s s (b2j s) (fun _ => false) 0 s.length 0 s.length
        = (0, 0, s.length) := by
      simpa using flm_diag s 0 s.length (by omega) (Nat.le_refl _)
    have hmb : mbAux s s (b2j s) (fun _ => false) (s.length + s.length + 1)
        0 s.length 0 s.length = [(0, 0, s.length)] := by
      rw [mbAux, if_pos ⟨by omega, by omega⟩, hflm]
      have hk : ¬ ((0, 0, s.length) : ℕ × ℕ × ℕ).2.2 = 0 := by
        show ¬ s.length = 0
        omega
      rw [if_neg hk]
      rw [if_neg (by simp), if_neg (by simp)]
      simp
    rw [hmb]
    have hs : sumSizes [((0 : ℕ), (0 : ℕ), s.length)] = s.length := by
      simp [sumSizes]
    rw [hs]
    have hden : ((s.length : ℚ) + (s.length : ℚ)) ≠ 0 := by
      have : (0 : ℚ) < (s.length : ℚ) + (s.length : ℚ) := by
        have : (0 : ℚ) < (s.length : ℚ) := by exact_mod_cast hpos
        linarith
      linarith
    rw [div_eq_one_iff_eq hden]
    ring

/-- `ratio` never exceeds 1. -/
theorem ratio_le_one (a b : List Char) : ratio a b ≤ 1 := by
  unfold ratio
  dsimp only
  by_cases h0 : a.length + b.length = 0
  · rw [if_pos h0]
  · rw [if_neg h0]
    have hsum := mbAux_sum_le a b (b2j b) (fun _ => false)
      (a.length + b.length + 1) 0 a.length 0 b.length
    have h1 : sumSizes (mbAux a b (b2j b) (fun _ => false)
        (a.length + b.length + 1) 0 a.length 0 b.length) ≤ a.length := by
      have := hsum.1; omega
    have h2 : sumSizes (mbAux a b (b2j b) (fun _ => false)
        (a.length + b.length + 1) 0 a.length 0 b.length) ≤ b.length := by
      have := hsum.2; omega
    have hden : (0 : ℚ) < (a.length : ℚ) + (b.length : ℚ) := by
      have : 0 < a.length + b.length := by omega
      exact_mod_cast this
    rw [div_le_one hden]
    have : 2 * sumSizes (mbAux a b (b2j b) (fun _ => false)
        (a.length + b.length + 1) 0 a.length 0 b.length) ≤ a.length + b.length := by
      omega
    exact_mod_cast this

/-- `ratio` is non-negative. -/
theorem ratio_nonneg (a b : List Char) : 0 ≤ ratio a b := by
  unfold ratio
  dsimp only
  by_cases h0 : a.length + b.length = 0
  · rw [if_pos h0]; norm_num
  · rw [if_neg h0]
    apply div_nonneg
    · positivity
    · positivity

end Difflib

namespace Focus

/-- `ratio` of `difflib.SequenceMatcher(None, text1, text2)` — the body of
every `calculate_similarity` in the repository. -/
def calculate_similarity (text1 text2 : String) : ℚ :=
  Difflib.ratio text1.data text2.data

/-- The alternation `(서론|문제 상황|실무 팁|결론)` of the cleanup regex, in
source order. -/
def headerLabels : List (List Char) :=
  ["서론".data, "문제 상황".data, "실무 팁".data, "결론".data]

/-- Greedy `\s*`: consume whitespace, tracking the last consumed character
(the `(?m)^` anchor of the next scan position needs it). -/
def eatWs : Char → List Char → Char × List Char
  | last, [] => (last, [])
  | last, c :: t => if pyIsSpace c then eatWs c t else (last, c :: t)

/-- Try to match `(L1|…|L4)[:\-]?\s*` at the start of `s`; on success return
the last character the match consumed and the remaining input. -/
def matchHeader : List (List Char) → List Char → Option (Char × List Char)
  | [], _ => none
  | lab :: labs, s =>
    if listStarts lab s then
      match lab.getLast? with
      | none => none
      | some lc =>
        match s.drop lab.length with
        | [] => some (lc, [])
        | c :: t =>
          if c = ':' ∨ c = '-' then some (eatWs c t)
          else some (eatWs lc (c :: t))
    else matchHeader labs s

/-- The scan of `re.sub(r'(?m)^(서론|문제 상황|실무 팁|결론)[:\-]?\s*', '', text)`:
at each position that starts a line, drop a header match and continue after
it; otherwise copy one character.  `fuel` bounds the number of steps; every
step consumes at least one character, so `fuel = s.length` runs the scan to
the end (the labels are at least two characters long). -/
def reSubGo : ℕ → Bool → List Char → List Char
  | 0, _, s => s
  | fuel + 1, atStart, s =>
    match atStart, matchHeader headerLabels s with
    | true, some (lc, rest) => reSubGo fuel (lc = '\n') rest
    | _, _ =>
      match s with
      | [] => []
      | c :: t => c :: reSubGo fuel (c = '\n') t

/-- `clean_content` as it appears in `xls.py`, `publi_xls.py`, `publi_ad.py`,
`publi_sup.py`, `nav.py` and `marketing.py`:
`re.sub(r'(?m)^(서론|문제 상황|실무 팁|결론)[:\-]?\s*', '', text).strip()`. -/
def clean_content (text : String) : String :=
  pyStrip ⟨reSubGo text.data.length true text.data⟩

/-- There is a header label at the start of `s`. -/
def hasHeaderAt (s : List Char) : Bool :=
  headerLabels.any (fun lab => listStarts lab s)

/-- No line of `s` starts with one of the four header labels (`b` records
whether the scan is at a line start). -/
def headerFree : Bool → List Char → Bool
  | _, [] => true
  | atStart, c :: t => (!(atStart && hasHeaderAt (c :: t))) && headerFree (c = '\n') t

theorem matchHeader_none (s : List Char) :
    ∀ labs : List (List Char), (∀ lab ∈ labs, listStarts lab s = false) →
      matchHeader labs s = none := by
  intro labs
  induction labs with
  | nil => intro _; rfl
  | cons lab rest ih =>
    intro h
    rw [matchHeader]
    rw [if_neg (by simp [h lab (by simp)])]
    exact ih (fun l hl => h l (by simp [hl]))

/-- On header-free input the substitution is the identity. -/
theorem reSubGo_headerFree :
    ∀ (fuel : ℕ) (b : Bool) (s : List Char), s.length ≤ fuel →
      headerFree b s = true → reSubGo fuel b s = s := by
  intro fuel
  induction fuel with
  | zero => intro b s _ _; rfl
  | succ p ih =>
    intro b s hlen hfree
    rcases s with _ | ⟨c, t⟩
    · rcases b <;> rfl
    · rw [headerFree] at hfree
      have hfree1 : (!(b && hasHeaderAt (c :: t))) = true := by
        cases hb : (!(b && hasHeaderAt (c :: t))) <;> simp [hb] at hfree ⊢
      have hfree2 : headerFree (c = '\n') t = true := by
        cases hb : headerFree (c = '\n') t <;> simp [hb] at hfree ⊢
      rcases b with _ | _
      · show (match false, matchHeader headerLabels (c :: t) with
          | true, some (lc, rest) => reSubGo p (lc = '\n') rest
          | _, _ => match c :: t with
            | [] => []
            | c :: t => c :: reSubGo p (c = '\n') t) = c :: t
        rcases hmh : matchHeader headerLabels (c :: t) with _ | ⟨lc, rest⟩ <;>
          simp only [] <;>
          rw [ih (c = '\n') t (by simpa using Nat.le_of_succ_le_succ (by simpa using hlen)) hfree2]
      · have hno : hasHeaderAt (c :: t) = false := by
          simp at hfree1
          exact hfree1
        have hmh : matchHeader headerLabels (c :: t) = none := by
          apply matchHeader_none
          intro lab hlab
          have := List.any_eq_false.mp hno lab hlab
          simpa using this
        show (match true, matchHeader headerLabels (c :: t) with
          | true, some (lc, rest) => reSubGo p (lc = '\n') rest
          | _, _ => match c :: t with
            | [] => []
            | c :: t => c :: reSubGo p (c = '\n') t) = c :: t
        rw [hmh]
        simp only []
        rw [ih (c = '\n') t (by simpa using Nat.le_of_succ_le_succ (by simpa using hlen)) hfree2]

end Focus

namespace Information

open Focus

/-- Tail of `information.py`'s regex after a label.  Its pattern reads
`\[:-]?\s\*`, i.e. a literal `[`, a literal `:`, a literal `-`, an optional
literal `]`, exactly one whitespace character, and a literal `*` (the escapes
turned the intended character class `[:\-]?` and quantifier `\s*` into
literals).  The optional `]` is tried greedily; since `]` is not whitespace,
the regex engine's backtracking reduces to the two plain cases below. -/
def matchInfoTail (s1 : List Char) : Option (Char × List Char) :=
  match s1 with
  | '[' :: ':' :: '-' :: r =>
    match r with
    | ']' :: w :: '*' :: r3 => if pyIsSpace w then some ('*', r3) else none
    | w :: '*' :: r3 => if pyIsSpace w then some ('*', r3) else none
    | _ => none
  | _ => none

/-- `information.py`'s header match: a label followed by `matchInfoTail`. -/
def matchHeaderInfo : List (List Char) → List Char → Option (Char × List Char)
  | [], _ => none
  | lab :: labs, s =>
    if listStarts lab s then
      match matchInfoTail (s.drop lab.length) with
      | some res => some res
      | none => matchHeaderInfo labs s
    else matchHeaderInfo labs s

/-- The scan of `information.py`'s
`re.sub(r'(?m)^(서론|문제 상황|실무 팁|결론)\[:-]?\s\*', '', text)`. -/
def reSubGoInfo : ℕ → Bool → List Char → List Char
  | 0, _, s => s
  | fuel + 1, atStart, s =>
    match atStart, matchHeaderInfo headerLabels s with
    | true, some (lc, rest) => reSubGoInfo fuel (lc = '\n') rest
    | _, _ =>
      match s with
      | [] => []
      | c :: t => c :: reSubGoInfo fuel (c = '\n') t

/-- `clean_content` as it appears in `information.py` (its regex is garbled
relative to every sibling script, see `matchInfoTail`). -/
def clean_content (text : String) : String :=
  pyStrip ⟨reSubGoInfo text.data.length true text.data⟩

end Information

namespace Focus

/-- The six prompt fields `purpose, tone, para, emphasis, fmt, etc` unpacked
by `build_messages_from_prompt`; `prompt_config[-1]` is `etc`. -/
structure PromptConfig where
  purpose : String
  tone : String
  para : String
  emphasis : String
  fmt : String
  etc : String

/-- Result of a `regenerate_unique_post` call, together with the ghost trace
`calls` of `(attempt, max_tokens)` requests issued to the completion API. -/
structure RegenResult where
  text : String
  score : ℚ
  attempts : ℕ
  calls : List (ℕ × ℕ)

end Focus

namespace Xls

open Focus

def SIMILARITY_THRESHOLD : ℚ := 6 / 10
def MAX_RETRIES : ℕ := 5

/-- `xls.py`'s token budget: `etc_lower = prompt_config[-1].lower()`;
`"2500자"` is tested before `"2000자"`, default 3000. -/
def max_tokens (cfg : PromptConfig) : ℕ :=
  let etc_lower := pyLower cfg.etc
  if strIn "2500자" etc_lower then 2500
  else if strIn "2000자" etc_lower then 2000
  else 3000

/-- The retry loop of `xls.py`'s `regenerate_unique_post`.  `rem` counts the
remaining iterations of `for i in range(1, MAX_RETRIES + 1)` and `i` is the
attempt number (`i + rem = MAX_RETRIES + 1` at every call); on fallthrough the
loop returns `(regen, score, MAX_RETRIES)`.  The candidate is
`clean_content(resp.choices[0].message.content.strip())` and the similarity is
`max(..., default=0)`. -/
def go (gen : ℕ → ℕ → String) (ex : List String) (tok : ℕ) :
    ℕ → ℕ → String → ℚ → RegenResult
  | 0, _, regen, score => ⟨regen, score, MAX_RETRIES, []⟩
  | rem + 1, i, regen, score =>
    let candidate := clean_content (pyStrip (gen i tok))
    let sim := pyMaxD (ex.map (fun t => calculate_similarity candidate t)) 0
    if sim < SIMILARITY_THRESHOLD then ⟨candidate, sim, i, [(i, tok)]⟩
    else
      let r := go gen ex tok rem (i + 1) candidate sim
      ⟨r.text, r.score, r.attempts, (i, tok) :: r.calls⟩

/-- `regenerate_unique_post(original_title, original, existing_texts,
prompt_config)` of `xls.py`, with the completion service abstracted as `gen`.
`regen, score = original, 1.0` before the loop. -/
def regenerate_unique_post (gen : ℕ → ℕ → String) (original_title original : String)
    (existing_texts : List String) (prompt_config : PromptConfig) : RegenResult :=
  go gen existing_texts (max_tokens prompt_config) MAX_RETRIES 1 original 1

end Xls

namespace PubliXls

open Focus

def SIMILARITY_THRESHOLD : ℚ := 6 / 10
def MAX_RETRIES : ℕ := 5

/-- `publi_xls.py`'s token budget: `"3000자"` is tested first, then
`"2500자"`, then `"2000자"`, default 3000. -/
def max_tokens (cfg : PromptConfig) : ℕ :=
  let etc_lower := pyLower cfg.etc
  if strIn "3000자" etc_lower then 3000
  else if strIn "2500자" etc_lower then 2500
  else if strIn "2000자" etc_lower then 2000
  else 3000

/-- The retry loop of `publi_xls.py`'s `regenerate_unique_post`: identical to
`xls.py`'s except that the similarity is `max(...)` with no `default`, which
raises `ValueError` when `existing_texts` is empty. -/
def go (gen : ℕ → ℕ → String) (ex : List String) (tok : ℕ) :
    ℕ → ℕ → String → ℚ → Except Unit RegenResult
  | 0, _, regen, score => .ok ⟨regen, score, MAX_RETRIES, []⟩
  | rem + 1, i, regen, score =>
    let candidate := clean_content (pyStrip (gen i tok))
    match pyMax (ex.map (fun t => calculate_similarity candidate t)) with
    | .error e => .error e
    | .ok sim =>
      if sim < SIMILARITY_THRESHOLD then .ok ⟨candidate, sim, i, [(i, tok)]⟩
      else
        match go gen ex tok rem (i + 1) candidate sim with
        | .error e => .error e
        | .ok r => .ok ⟨r.text, r.score, r.attempts, (i, tok) :: r.calls⟩

/-- `regenerate_unique_post` of `publi_xls.py`. -/
def regenerate_unique_post (gen : ℕ → ℕ → String) (original_title original : String)
    (existing_texts : List String) (prompt_cfg : PromptConfig) :
    Except Unit RegenResult :=
  go gen existing_texts (max_tokens prompt_cfg) MAX_RETRIES 1 original 1

end PubliXls

namespace Nav

open Focus

def SIMILARITY_THRESHOLD : ℚ := 6 / 10
def MAX_RETRIES : ℕ := 5

/-- `nav.py`'s token budget (same branch order as `publi_xls.py`). -/
def max_tokens (cfg : PromptConfig) : ℕ :=
  let etc_lower := pyLower cfg.etc
  if strIn "3000자" etc_lower then 3000
  else if strIn "2500자" etc_lower then 2500
  else if strIn "2000자" etc_lower then 2000
  else 3000

/-- The retry loop of `nav.py`'s `regenerate_unique_post`: candidate stripped
then cleaned, similarity `max(...)` with no `default` (raises `ValueError` on
an empty corpus). -/
def go (gen : ℕ → ℕ → String) (ex : List String) (tok : ℕ) :
    ℕ → ℕ → String → ℚ → Except Unit (String × ℚ × ℕ)
  | 0, _, regen, score => .ok (regen, score, MAX_RETRIES)
  | rem + 1, i, regen, score =>
    let candidate := clean_content (pyStrip (gen i tok))
    match pyMax (ex.map (fun t => calculate_similarity candidate t)) with
    | .error e => .error e
    | .ok sim =>
      if sim < SIMILARITY_THRESHOLD then .ok (candidate, sim, i)
      else go gen ex tok rem (i + 1) candidate sim

/-- `regenerate_unique_post` of `nav.py` (the `model` argument selects the
API model name and does not affect the values modelled here). -/
def regenerate_unique_post (gen : ℕ → ℕ → String) (original_title original : String)
    (existing_texts : List String) (prompt_config : PromptConfig) (model : String) :
    Except Unit (String × ℚ × ℕ) :=
  go gen existing_texts (max_tokens prompt_config) MAX_RETRIES 1 original 1

end Nav

namespace PubliSup

open Focus

def SIMILARITY_THRESHOLD : ℚ := 6 / 10
def MAX_RETRIES : ℕ := 5

/-- The retry loop of `publi_sup.py`'s `regenerate_unique_post`:
`for i in range(MAX_RETRIES)` returning `i + 1` on success (modelled with the
1-based attempt number `i`), fixed `max_tokens=2500`, candidate stripped then
cleaned, similarity `max(...)` with no `default`.  On fallthrough it returns
the variables `regen, score` from the last iteration. -/
def go (gen : ℕ → ℕ → String) (ex : List String) :
    ℕ → ℕ → String → ℚ → Except Unit (String × ℚ × ℕ)
  | 0, _, regen, score => .ok (regen, score, MAX_RETRIES)
  | rem + 1, i, regen, score =>
    let candidate := clean_content (pyStrip (gen i 2500))
    match pyMax (ex.map (fun t => calculate_similarity candidate t)) with
    | .error e => .error e
    | .ok sim =>
      if sim < SIMILARITY_THRESHOLD then .ok (candidate, sim, i)
      else go gen ex rem (i + 1) candidate sim

/-- `regenerate_unique_post` of `publi_sup.py`.  In the Python source `regen`
and `score` are unset before the loop; the loop body always runs
(`MAX_RETRIES = 5 > 0`), so the initial values below are never returned. -/
def regenerate_unique_post (gen : ℕ → ℕ → String) (original_title original : String)
    (existing_texts : List String) (prompt_config : PromptConfig) (model : String) :
    Except Unit (String × ℚ × ℕ) :=
  go gen existing_texts MAX_RETRIES 1 "" 0

end PubliSup

namespace PubliAd

open Focus

def SIMILARITY_THRESHOLD : ℚ := 6 / 10
def MAX_RETRIES : ℕ := 5

/-- `publi_ad.py`'s token budget is scanned in **the model name**, not in the
style configuration: `mlower = model_name.lower()`; `max_tokens = 3000`
unless `"2500자"` (2500) or `"2000자"` (2000) occurs in `mlower`. -/
def max_tokens (model_name : String) : ℕ :=
  let mlower := pyLower model_name
  if strIn "2500자" mlower then 2500
  else if strIn "2000자" mlower then 2000
  else 3000

/-- The retry loop of `publi_ad.py`'s `regenerate_unique_post`: the candidate
is `clean_content(resp.choices[0].message.content)` (no `.strip()`), and the
similarity is `max(...) if existing_texts else 0`, which coincides with the
left fold with default 0. -/
def go (gen : ℕ → ℕ → String) (ex : List String) (tok : ℕ) :
    ℕ → ℕ → String → ℚ → RegenResult
  | 0, _, regen, score => ⟨regen, score, MAX_RETRIES, []⟩
  | rem + 1, i, regen, score =>
    let candidate := clean_content (gen i tok)
    let sim := pyMaxD (ex.map (fun t => calculate_similarity candidate t)) 0
    if sim < SIMILARITY_THRESHOLD then ⟨candidate, sim, i, [(i, tok)]⟩
    else
      let r := go gen ex tok rem (i + 1) candidate sim
      ⟨r.text, r.score, r.attempts, (i, tok) :: r.calls⟩

/-- `regenerate_unique_post` of `publi_ad.py`. -/
def regenerate_unique_post (gen : ℕ → ℕ → String) (original_title original : String)
    (existing_texts : List String) (prompt_text_cfg : PromptConfig)
    (model_name : String) : RegenResult :=
  go gen existing_texts (max_tokens model_name) MAX_RETRIES 1 original 1

end PubliAd

namespace Marketing

open Focus

def SIMILARITY_THRESHOLD : ℚ := 5 / 10
def MAX_RETRIES : ℕ := 5

/-- `marketing.py`'s token budget: `max_tokens` starts at 3000 and is
re-derived from `prompt_cfg[-1].lower()` on every iteration (`"2500자"` then
`"2000자"`, otherwise it keeps its previous value — which, the configuration
being constant across iterations, is the initial 3000). -/
def max_tokens (cfg : PromptConfig) : ℕ :=
  let etc_lower := pyLower cfg.etc
  if strIn "2500자" etc_lower then 2500
  else if strIn "2000자" etc_lower then 2000
  else 3000

/-- Phase 2 of `marketing.py`'s `regenerate_unique_post`: after the first
`MAX_RETRIES` attempts fail, retry `MAX_RETRIES` more times against the
relaxed threshold 0.7, returning `MAX_RETRIES + i` as the attempt count
(modelled by the global call number `i` running from `MAX_RETRIES + 1`); on
fallthrough return `(regen, score, MAX_RETRIES * 2)`.  The candidate is
`clean_content(resp.choices[0].message.content or '')` — `x or ''` is the
identity on strings.  The similarity is `max(...)` with no `default`. -/
def go2 (gen : ℕ → ℕ → String) (ex : List String) (tok : ℕ) :
    ℕ → ℕ → String → ℚ → Except Unit (String × ℚ × ℕ)
  | 0, _, regen, score => .ok (regen, score, MAX_RETRIES * 2)
  | rem + 1, i, regen, score =>
    let candidate := clean_content (gen i tok)
    match pyMax (ex.map (fun t => calculate_similarity candidate t)) with
    | .error e => .error e
    | .ok sim =>
      if sim < 7 / 10 then .ok (candidate, sim, i)
      else go2 gen ex tok rem (i + 1) candidate sim

/-- Phase 1 of `marketing.py`'s `regenerate_unique_post`: the local
`threshold = 0.6`; on fallthrough the code enters the relaxed phase. -/
def go1 (gen : ℕ → ℕ → String) (ex : List String) (tok : ℕ) :
    ℕ → ℕ → String → ℚ → Except Unit (String × ℚ × ℕ)
  | 0, _, regen, score => go2 gen ex tok MAX_RETRIES (MAX_RETRIES + 1) regen score
  | rem + 1, i, regen, score =>
    let candidate := clean_content (gen i tok)
    match pyMax (ex.map (fun t => calculate_similarity candidate t)) with
    | .error e => .error e
    | .ok sim =>
      if sim < 6 / 10 then .ok (candidate, sim, i)
      else go1 gen ex tok rem (i + 1) candidate sim

/-- `regenerate_unique_post` of `marketing.py` (no-exception path: the
`try/except ... continue` around the API call never fires when the service
answers, which is what the oracle `gen` models). -/
def regenerate_unique_post (gen : ℕ → ℕ → String) (original_title original : String)
    (existing_texts : List String) (prompt_cfg : PromptConfig)
    (model_name : String) : Except Unit (String × ℚ × ℕ) :=
  go1 gen existing_texts (max_tokens prompt_cfg) MAX_RETRIES 1 original 1

end Marketing

namespace FocusMain

/-- The environment `focus.py` runs in: which script files exist
(`os.path.isfile`) and which exit successfully (`subprocess.run(check=True)`
not raising). -/
structure ScriptEnv where
  present : String → Bool
  succeeds : String → Bool

/-- `run_script(filename, required)`, threaded through a state of
(scripts launched so far, exit code if the process already called `exit(1)`).
A missing file returns `False` for optional scripts and exits 1 for required
ones; a failing run likewise. -/
def run_script (env : ScriptEnv) (st : List String × Option ℕ)
    (filename : String) (required : Bool) : List String × Option ℕ :=
  match st.2 with
  | some _ => st
  | none =>
    if ¬ env.present filename then
      (st.1, if required then some 1 else none)
    else
      if env.succeeds filename then (st.1 ++ [filename], none)
      else (st.1 ++ [filename], if required then some 1 else none)

/-- `main()` of `focus.py`: raindrop.py and publi_ad.py (required), xls.py and
image.py (optional), publi_sup.py (required), then publi_xls.py (required)
but only if `xls.py` exists as a file. -/
def main (env : ScriptEnv) : List String × Option ℕ :=
  let s1 := run_script env ([], none) "raindrop.py" true
  let s2 := run_script env s1 "publi_ad.py" true
  let s3 := run_script env s2 "xls.py" false
  let s4 := run_script env s3 "image.py" false
  let s5 := run_script env s4 "publi_sup.py" true
  if env.present "xls.py" then run_script env s5 "publi_xls.py" true else s5

/-- The fixed execution order. -/
def scriptOrder : List String :=
  ["raindrop.py", "publi_ad.py", "xls.py", "image.py", "publi_sup.py", "publi_xls.py"]

/-- The required members of the sequence. -/
def requiredScripts : List String :=
  ["raindrop.py", "publi_ad.py", "publi_sup.py", "publi_xls.py"]

end FocusMain

namespace Raindrop

/-- A Raindrop item as consumed by `fetch_and_process_raindrop`: `title`,
`link`, `tags` (a missing field and an empty one are both falsy). -/
structure RItem where
  title : String
  link : String
  tags : List String

/-- The per-item loop of `fetch_and_process_raindrop`, from the point where
`existing_links = set(sheet.col_values(4)[1:])` has been built.  `extract`
models `extract_main_text` (`none` = request failure; the empty string is
falsy and also skipped).  The state is the `existing_links` set (as a list
queried by membership) and the links of the rows appended so far, in order.
Summaries and collection names affect other columns only. -/
def fetchLoop (extract : String → Option String) :
    List RItem → List String → List String → List String × List String
  | [], exSet, appended => (exSet, appended)
  | item :: rest, exSet, appended =>
    if item.title = "" ∨ item.link = "" ∨ item.tags = [] then
      fetchLoop extract rest exSet appended
    else if item.link ∈ exSet then
      fetchLoop extract rest exSet appended
    else
      match extract item.link with
      | none => fetchLoop extract rest exSet appended
      | some content =>
        if content = "" then fetchLoop extract rest exSet appended
        else fetchLoop extract rest (item.link :: exSet) (appended ++ [item.link])

/-- The link column (column 4, header excluded) after a run of
`fetch_and_process_raindrop`: the rows present before the run followed by the
links of the appended rows. -/
def linkColumnAfter (extract : String → Option String) (items : List RItem)
    (linkColumn : List String) : List String :=
  linkColumn ++ (fetchLoop extract items linkColumn []).2

end Raindrop

namespace Focus

theorem foldl_max_le (c : ℚ) : ∀ (l : List ℚ) (a : ℚ), a ≤ c → (∀ x ∈ l, x ≤ c) →
    l.foldl max a ≤ c := by
  intro l
  induction l with
  | nil => intro a ha _; simpa using ha
  | cons x xs ih =>
    intro a ha hl
    rw [List.foldl_cons]
    exact ih (max a x) (max_le ha (hl x (by simp))) (fun y hy => hl y (by simp [hy]))

theorem le_foldl_max : ∀ (l : List ℚ) (a : ℚ), a ≤ l.foldl max a := by
  intro l
  induction l with
  | nil => intro a; simp
  | cons x xs ih =>
    intro a
    rw [List.foldl_cons]
    exact le_trans (le_max_left a x) (ih (max a x))

theorem mem_le_foldl_max : ∀ (l : List ℚ) (a x : ℚ), x ∈ l → x ≤ l.foldl max a := by
  intro l
  induction l with
  | nil => intro a x hx; simp at hx
  | cons y ys ih =>
    intro a x hx
    rw [List.foldl_cons]
    rcases List.mem_cons.mp hx with h | h
    · subst h
      exact le_trans (le_max_right a x) (le_foldl_max ys (max a x))
    · exact ih (max a y) x h

theorem pyMaxD_le (l : List ℚ) (d c : ℚ) (hd : d ≤ c) (h : ∀ x ∈ l, x ≤ c) :
    pyMaxD l d ≤ c := by
  rcases l with _ | ⟨x, xs⟩
  · exact hd
  · exact foldl_max_le c xs x (h x (by simp)) (fun y hy => h y (by simp [hy]))

theorem le_pyMaxD_of_mem (l : List ℚ) (d x : ℚ) (hx : x ∈ l) : x ≤ pyMaxD l d := by
  rcases l with _ | ⟨y, ys⟩
  · simp at hx
  · rcases List.mem_cons.mp hx with h | h
    · subst h; exact le_foldl_max ys x
    · exact mem_le_foldl_max ys y x h

/-- With a corpus text equal to the candidate, the maximal similarity is 1. -/
theorem pyMaxD_sim_self (s : String) (corpus : List String) (hs : s ∈ corpus) :
    pyMaxD (corpus.map (fun t => calculate_similarity s t)) 0 = 1 := by
  apply le_antisymm
  · apply pyMaxD_le _ _ _ (by norm_num)
    intro x hx
    rcases List.mem_map.mp hx with ⟨t, _, rfl⟩
    exact Difflib.ratio_le_one s.data t.data
  · have h1 : calculate_similarity s s = 1 := Difflib.ratio_self s.data
    rw [← h1]
    exact le_pyMaxD_of_mem _ _ _ (List.mem_map.mpr ⟨s, hs, rfl⟩)

/-- The `pyMax` of a nonempty list is `pyMaxD` of it. -/
theorem pyMax_cons (x : ℚ) (xs : List ℚ) :
    pyMax (x :: xs) = .ok (pyMaxD (x :: xs) 0) := rfl

end Focus

namespace Xls

open Focus

/-- The candidate of attempt `i` in `xls.py`:
`clean_content(resp.choices[0].message.content.strip())`. -/
def candAt (gen : ℕ → ℕ → String) (tok i : ℕ) : String :=
  clean_content (pyStrip (gen i tok))

/-- The similarity the loop computes on attempt `i`. -/
def simAt (gen : ℕ → ℕ → String) (ex : List String) (tok i : ℕ) : ℚ :=
  pyMaxD (ex.map (fun t => calculate_similarity (candAt gen tok i) t)) 0

theorem go_succ (gen : ℕ → ℕ → String) (ex : List String) (tok rem i : ℕ)
    (regen : String) (score : ℚ) :
    go gen ex tok (rem + 1) i regen score =
      if simAt gen ex tok i < SIMILARITY_THRESHOLD then
        ⟨candAt gen tok i, simAt gen ex tok i, i, [(i, tok)]⟩
      else
        ⟨(go gen ex tok rem (i + 1) (candAt gen tok i) (simAt gen ex tok i)).text,
         (go gen ex tok rem (i + 1) (candAt gen tok i) (simAt gen ex tok i)).score,
         (go gen ex tok rem (i + 1) (candAt gen tok i) (simAt gen ex tok i)).attempts,
         (i, tok) ::
           (go gen ex tok rem (i + 1) (candAt gen tok i) (simAt gen ex tok i)).calls⟩ := by
  simp only [go, candAt, simAt]

/-- Full characterization of `xls.py`'s retry loop. -/
theorem go_spec (gen : ℕ → ℕ → String) (ex : List String) (tok : ℕ) :
    ∀ (rem i : ℕ) (regen : String) (score : ℚ), rem + i = MAX_RETRIES + 1 → 1 ≤ rem →
      i ≤ (go gen ex tok rem i regen score).attempts ∧
      (go gen ex tok rem i regen score).attempts ≤ MAX_RETRIES ∧
      (go gen ex tok rem i regen score).text
        = candAt gen tok (go gen ex tok rem i regen score).attempts ∧
      (go gen ex tok rem i regen score).score
        = simAt gen ex tok (go gen ex tok rem i regen score).attempts ∧
      ((go gen ex tok rem i regen score).attempts < MAX_RETRIES →
        (go gen ex tok rem i regen score).score < SIMILARITY_THRESHOLD) ∧
      (∀ j, i ≤ j → j < (go gen ex tok rem i regen score).attempts →
        ¬ simAt gen ex tok j < SIMILARITY_THRESHOLD) ∧
      (∀ p ∈ (go gen ex tok rem i regen score).calls, p.2 = tok) ∧
      (go gen ex tok rem i regen score).calls ≠ [] := by
  intro rem
  induction rem with
  | zero => intro i regen score _ h; omega
  | succ p ih =>
    intro i regen score hsum hpos
    rw [go_succ]
    by_cases hs : simAt gen ex tok i < SIMILARITY_THRESHOLD
    · rw [if_pos hs]
      dsimp only
      refine ⟨Nat.le_refl _, by omega, rfl, rfl, fun _ => hs,
        fun j h1 h2 => by omega, ?_, by simp⟩
      intro q hq
      simp at hq
      simp [hq]
    · rw [if_neg hs]
      rcases Nat.eq_zero_or_pos p with hp | hp
      · subst hp
        have hi : i = MAX_RETRIES := by omega
        have hzero : go gen ex tok 0 (i + 1) (candAt gen tok i) (simAt gen ex tok i)
            = ⟨candAt gen tok i, simAt gen ex tok i, MAX_RETRIES, []⟩ := rfl
        rw [hzero]
        dsimp only
        refine ⟨by omega, Nat.le_refl _, by rw [hi], by rw [hi],
          fun h => absurd h (by omega), fun j h1 h2 => by omega, ?_, by simp⟩
        intro q hq
        simp at hq
        simp [hq]
      · have hrec := ih (i + 1) (candAt gen tok i) (simAt gen ex tok i) (by omega) hp
        obtain ⟨h1, h2, h3, h4, h5, h6, h7, h8⟩ := hrec
        dsimp only
        refine ⟨by omega, h2, h3, h4, h5, ?_, ?_, by simp⟩
        · intro j hj1 hj2
          rcases Nat.eq_or_lt_of_le hj1 with hji | hji
          · subst hji; exact hs
          · exact h6 j (by omega) hj2
        · intro q hq
          simp at hq
          rcases hq with hq | hq
          · simp [hq]
          · exact h7 q hq

end Xls

namespace PubliXls

open Focus

theorem thr_eq : SIMILARITY_THRESHOLD = Xls.SIMILARITY_THRESHOLD := rfl

/-- On a nonempty corpus, `publi_xls.py`'s loop computes exactly what
`xls.py`'s does (the two bodies differ only in `max(...)` vs
`max(..., default=0)`, which agree on nonempty sequences). -/
theorem go_eq_xls (gen : ℕ → ℕ → String) (e : String) (es : List String) (tok : ℕ) :
    ∀ (rem i : ℕ) (regen : String) (score : ℚ),
      go gen (e :: es) tok rem i regen score
        = .ok (Xls.go gen (e :: es) tok rem i regen score) := by
  intro rem
  induction rem with
  | zero => intro i regen score; rfl
  | succ p ih =>
    intro i regen score
    rw [go, Xls.go]
    have hmx : pyMax ((e :: es).map (fun t =>
        calculate_similarity (clean_content (pyStrip (gen i tok))) t))
        = .ok (pyMaxD ((e :: es).map (fun t =>
            calculate_similarity (clean_content (pyStrip (gen i tok))) t)) 0) := rfl
    rw [hmx]
    dsimp only
    by_cases hs : pyMaxD ((e :: es).map (fun t =>
        calculate_similarity (clean_content (pyStrip (gen i tok))) t)) 0
        < Xls.SIMILARITY_THRESHOLD
    · rw [if_pos (by rw [thr_eq]; exact hs), if_pos hs]
    · rw [if_neg (by rw [thr_eq]; exact hs), if_neg hs, ih]

end PubliXls

namespace PubliSup

open Focus

/-- The candidate of attempt `i` in `publi_sup.py` (fixed budget 2500). -/
def candAt (gen : ℕ → ℕ → String) (i : ℕ) : String :=
  clean_content (pyStrip (gen i 2500))

/-- The similarity the loop computes on attempt `i` (the corpus being
nonempty, `max(...)` equals the defaulted fold). -/
def simAt (gen : ℕ → ℕ → String) (ex : List String) (i : ℕ) : ℚ :=
  pyMaxD (ex.map (fun t => calculate_similarity (candAt gen i) t)) 0

/-- If no attempt's similarity gets below the threshold, `publi_sup.py`'s
loop exhausts and returns the final attempt's candidate and score with
`attemptsUsed = MAX_RETRIES`. -/
theorem go_exhaust (gen : ℕ → ℕ → String) (e : String) (es : List String)
    (hsim : ∀ j, 1 ≤ j → j ≤ MAX_RETRIES →
      ¬ simAt gen (e :: es) j < SIMILARITY_THRESHOLD) :
    ∀ (rem i : ℕ) (regen : String) (score : ℚ), rem + i = MAX_RETRIES + 1 →
      1 ≤ i → 1 ≤ rem →
      go gen (e :: es) rem i regen score
        = .ok (candAt gen MAX_RETRIES, simAt gen (e :: es) MAX_RETRIES, MAX_RETRIES) := by
  intro rem
  induction rem with
  | zero => intro i regen score _ _ h; omega
  | succ p ih =>
    intro i regen score hsum hpos _
    rw [go]
    have hmx : pyMax ((e :: es).map (fun t =>
        calculate_similarity (clean_content (pyStrip (gen i 2500))) t))
        = .ok (simAt gen (e :: es) i) := rfl
    rw [hmx]
    dsimp only
    rw [if_neg (hsim i hpos (by omega))]
    rcases Nat.eq_zero_or_pos p with hp | hp
    · subst hp
      have hi : i = MAX_RETRIES := by omega
      subst hi
      rfl
    · exact ih (i + 1) _ _ (by omega) (by omega) hp

end PubliSup

namespace PubliAd

open Focus

/-- Every API call issued by `publi_ad.py`'s loop carries the budget derived
from the model name, and at least one call is issued. -/
theorem go_calls (gen : ℕ → ℕ → String) (ex : List String) (tok : ℕ) :
    ∀ (rem i : ℕ) (regen : String) (score : ℚ),
      (∀ p ∈ (go gen ex tok rem i regen score).calls, p.2 = tok) ∧
      (1 ≤ rem → (go gen ex tok rem i regen score).calls ≠ []) := by
  intro rem
  induction rem with
  | zero =>
    intro i regen score
    exact ⟨fun p hp => by simp [go] at hp, fun h => by omega⟩
  | succ p ih =>
    intro i regen score
    rw [go]
    dsimp only
    by_cases hs : pyMaxD (ex.map (fun t =>
        calculate_similarity (clean_content (gen i tok)) t)) 0 < SIMILARITY_THRESHOLD
    · rw [if_pos hs]
      refine ⟨?_, fun _ => by simp⟩
      intro q hq
      simp at hq
      simp [hq]
    · rw [if_neg hs]
      dsimp only
      refine ⟨?_, fun _ => by simp⟩
      intro q hq
      simp at hq
      rcases hq with hq | hq
      · simp [hq]
      · exact (ih (i + 1) _ _).1 q hq

end PubliAd

namespace Marketing

open Focus

/-- The candidate of attempt `i` in `marketing.py`
(`clean_content(resp.choices[0].message.content or '')` — no `.strip()`). -/
def candAt (gen : ℕ → ℕ → String) (tok i : ℕ) : String :=
  clean_content (gen i tok)

/-- The similarity computed on attempt `i` (for a nonempty corpus). -/
def simAt (gen : ℕ → ℕ → String) (ex : List String) (tok i : ℕ) : ℚ :=
  pyMaxD (ex.map (fun t => calculate_similarity (candAt gen tok i) t)) 0

/-- Whenever `marketing.py`'s relaxed phase returns a value, the attempt
count lies in `[1, 2 * MAX_RETRIES]` and the text is the candidate of that
attempt. -/
theorem go2_spec (gen : ℕ → ℕ → String) (e : String) (es : List String) (tok : ℕ) :
    ∀ (rem i : ℕ) (regen : String) (score : ℚ),
      rem + i = 2 * MAX_RETRIES + 1 → 1 ≤ i →
      (rem = 0 → regen = candAt gen tok (i - 1)) →
      ∀ r, go2 gen (e :: es) tok rem i regen score = .ok r →
        1 ≤ r.2.2 ∧ r.2.2 ≤ 2 * MAX_RETRIES ∧ r.1 = candAt gen tok r.2.2 := by
  intro rem
  induction rem with
  | zero =>
    intro i regen score hsum hi hreg r hr
    rw [go2] at hr
    have hr' : r = (regen, score, MAX_RETRIES * 2) := by
      simpa using hr.symm
    subst hr'
    have hi10 : i = 2 * MAX_RETRIES + 1 := by omega
    refine ⟨by simp [MAX_RETRIES], by simp [MAX_RETRIES], ?_⟩
    show regen = candAt gen tok (MAX_RETRIES * 2)
    rw [hreg rfl, hi10]
    have : 2 * MAX_RETRIES + 1 - 1 = MAX_RETRIES * 2 := by omega
    rw [this]
  | succ p ih =>
    intro i regen score hsum hi hreg r hr
    rw [go2] at hr
    have hmx : pyMax ((e :: es).map (fun t =>
        calculate_similarity (clean_content (gen i tok)) t))
        = .ok (simAt gen (e :: es) tok i) := rfl
    rw [hmx] at hr
    dsimp only at hr
    by_cases hs : simAt gen (e :: es) tok i < 7 / 10
    · rw [if_pos hs] at hr
      have hr' : r = (candAt gen tok i, simAt gen (e :: es) tok i, i) := by
        simpa [candAt] using hr.symm
      subst hr'
      refine ⟨hi, ?_, rfl⟩
      show i ≤ 2 * MAX_RETRIES
      omega
    · rw [if_neg hs] at hr
      exact ih (i + 1) _ _ (by omega) (by omega)
        (fun _ => by simp [candAt]) r hr

/-- Whenever `marketing.py`'s `regenerate_unique_post` loop returns a value,
the attempt count lies in `[1, 2 * MAX_RETRIES]` and the text is the
candidate of that attempt. -/
theorem go1_spec (gen : ℕ → ℕ → String) (e : String) (es : List String) (tok : ℕ) :
    ∀ (rem i : ℕ) (regen : String) (score : ℚ),
      rem + i = MAX_RETRIES + 1 → 1 ≤ i →
      ∀ r, go1 gen (e :: es) tok rem i regen score = .ok r →
        1 ≤ r.2.2 ∧ r.2.2 ≤ 2 * MAX_RETRIES ∧ r.1 = candAt gen tok r.2.2 := by
  intro rem
  induction rem with
  | zero =>
    intro i regen score hsum hi r hr
    rw [go1] at hr
    exact go2_spec gen e es tok MAX_RETRIES (MAX_RETRIES + 1) regen score
      (by omega) (by omega) (fun h => by simp [MAX_RETRIES] at h) r hr
  | succ p ih =>
    intro i regen score hsum hi r hr
    rw [go1] at hr
    have hmx : pyMax ((e :: es).map (fun t =>
        calculate_similarity (clean_content (gen i tok)) t))
        = .ok (simAt gen (e :: es) tok i) := rfl
    rw [hmx] at hr
    dsimp only at hr
    by_cases hs : simAt gen (e :: es) tok i < 6 / 10
    · rw [if_pos hs] at hr
      have hr' : r = (candAt gen tok i, simAt gen (e :: es) tok i, i) := by
        simpa [candAt] using hr.symm
      subst hr'
      refine ⟨hi, ?_, rfl⟩
      show i ≤ 2 * MAX_RETRIES
      simp [MAX_RETRIES] at hsum ⊢
      omega
    · rw [if_neg hs] at hr
      exact ih (i + 1) _ _ (by omega) (by omega) r hr

/-- If no attempt beats the relaxed threshold either, phase 2 exhausts and
returns the candidate of the final (`2 * MAX_RETRIES`-th) call. -/
theorem go2_exhaust (gen : ℕ → ℕ → String) (e : String) (es : List String) (tok : ℕ)
    (hsim : ∀ j, ¬ simAt gen (e :: es) tok j < 7 / 10) :
    ∀ (rem i : ℕ) (regen : String) (score : ℚ), 1 ≤ rem →
      go2 gen (e :: es) tok rem i regen score
        = .ok (candAt gen tok (i + rem - 1), simAt gen (e :: es) tok (i + rem - 1),
            MAX_RETRIES * 2) := by
  intro rem
  induction rem with
  | zero => intro i regen score h; omega
  | succ p ih =>
    intro i regen score _
    rw [go2]
    have hmx : pyMax ((e :: es).map (fun t =>
        calculate_similarity (clean_content (gen i tok)) t))
        = .ok (simAt gen (e :: es) tok i) := rfl
    rw [hmx]
    dsimp only
    rw [if_neg (hsim i)]
    rcases Nat.eq_zero_or_pos p with hp | hp
    · subst hp
      rw [go2]
      have : i + 1 - 1 = i := by omega
      rw [this]
      rfl
    · rw [ih (i + 1) _ _ hp]
      have : i + 1 + p - 1 = i + (p + 1) - 1 := by omega
      rw [this]

/-- If no attempt beats either threshold, `marketing.py` exhausts both
phases. -/
theorem go1_exhaust (gen : ℕ → ℕ → String) (e : String) (es : List String) (tok : ℕ)
    (hsim6 : ∀ j, ¬ simAt gen (e :: es) tok j < 6 / 10)
    (hsim7 : ∀ j, ¬ simAt gen (e :: es) tok j < 7 / 10) :
    ∀ (rem i : ℕ) (regen : String) (score : ℚ),
      go1 gen (e :: es) tok rem i regen score
        = .ok (candAt gen tok (2 * MAX_RETRIES), simAt gen (e :: es) tok (2 * MAX_RETRIES),
            MAX_RETRIES * 2) := by
  intro rem
  induction rem with
  | zero =>
    intro i regen score
    rw [go1, go2_exhaust gen e es tok hsim7 MAX_RETRIES (MAX_RETRIES + 1) _ _
      (by simp [MAX_RETRIES])]
    have : MAX_RETRIES + 1 + MAX_RETRIES - 1 = 2 * MAX_RETRIES := by omega
    rw [this]
  | succ p ih =>
    intro i regen score
    rw [go1]
    have hmx : pyMax ((e :: es).map (fun t =>
        calculate_similarity (clean_content (gen i tok)) t))
        = .ok (simAt gen (e :: es) tok i) := rfl
    rw [hmx]
    dsimp only
    rw [if_neg (hsim6 i)]
    exact ih (i + 1) _ _

end Marketing

namespace Xls

open Focus

/-- A below-threshold first check returns immediately. -/
theorem go_first (gen : ℕ → ℕ → String) (ex : List String) (tok rem i : ℕ)
    (regen : String) (score : ℚ)
    (h : simAt gen ex tok i < SIMILARITY_THRESHOLD) :
    go gen ex tok (rem + 1) i regen score
      = ⟨candAt gen tok i, simAt gen ex tok i, i, [(i, tok)]⟩ := by
  rw [go_succ, if_pos h]

end Xls

namespace PubliAd

open Focus

/-- The candidate of attempt `i` in `publi_ad.py` (no `.strip()`). -/
def candAt (gen : ℕ → ℕ → String) (tok i : ℕ) : String :=
  clean_content (gen i tok)

/-- The similarity the loop computes on attempt `i`. -/
def simAt (gen : ℕ → ℕ → String) (ex : List String) (tok i : ℕ) : ℚ :=
  pyMaxD (ex.map (fun t => calculate_similarity (candAt gen tok i) t)) 0

/-- A below-threshold first check returns immediately. -/
theorem go_first_ad (gen : ℕ → ℕ → String) (ex : List String) (tok rem i : ℕ)
    (regen : String) (score : ℚ)
    (h : simAt gen ex tok i < SIMILARITY_THRESHOLD) :
    go gen ex tok (rem + 1) i regen score
      = ⟨candAt gen tok i, simAt gen ex tok i, i, [(i, tok)]⟩ := by
  have h' : pyMaxD (ex.map (fun t =>
      calculate_similarity (clean_content (gen i tok)) t)) 0
      < SIMILARITY_THRESHOLD := h
  rw [go]
  dsimp only
  rw [if_pos h']
  rfl

end PubliAd

namespace Raindrop

/-- Loop invariant of `fetch_and_process_raindrop`: rows already appended are
recorded in the `existing_links` set and never duplicate the initial link
column; this is preserved because a row is appended only when its link is
absent from the set, and the link is added to the set right away. -/
theorem fetchLoop_spec (extract : String → Option String) (col : List String) :
    ∀ (items : List RItem) (exSet appended : List String),
      (∀ x ∈ col, x ∈ exSet) →
      appended.Nodup →
      (∀ x ∈ appended, x ∈ exSet) →
      (∀ x ∈ appended, x ∉ col) →
      (fetchLoop extract items exSet appended).2.Nodup ∧
      (∀ x ∈ (fetchLoop extract items exSet appended).2, x ∉ col) := by
  intro items
  induction items with
  | nil =>
    intro exSet appended hcol hnd hsub hdis
    exact ⟨hnd, hdis⟩
  | cons item rest ih =>
    intro exSet appended hcol hnd hsub hdis
    rw [fetchLoop]
    by_cases h1 : item.title = "" ∨ item.link = "" ∨ item.tags = []
    · rw [if_pos h1]
      exact ih exSet appended hcol hnd hsub hdis
    rw [if_neg h1]
    by_cases h2 : item.link ∈ exSet
    · rw [if_pos h2]
      exact ih exSet appended hcol hnd hsub hdis
    rw [if_neg h2]
    rcases hx : extract item.link with _ | content
    · exact ih exSet appended hcol hnd hsub hdis
    dsimp only
    by_cases h3 : content = ""
    · rw [if_pos h3]
      exact ih exSet appended hcol hnd hsub hdis
    rw [if_neg h3]
    apply ih (item.link :: exSet) (appended ++ [item.link])
    · intro x hx'
      simp [hcol x hx']
    · rw [List.nodup_append]
      refine ⟨hnd, List.nodup_singleton _, ?_⟩
      intro x hx' hx''
      have hxl : x = item.link := by simpa using hx''
      subst hxl
      exact h2 (hsub _ hx')
    · intro x hx'
      rcases List.mem_append.mp hx' with h | h
      · simp [hsub x h]
      · have : x = item.link := by simpa using h
        subst this
        simp
    · intro x hx'
      rcases List.mem_append.mp hx' with h | h
      · exact hdis x h
      · have : x = item.link := by simpa using h
        subst this
        intro hmem
        exact h2 (hcol _ hmem)

end Raindrop

namespace Difflib

theorem ratio_eval (a b : List Char) (m : ℕ)
    (hm : sumSizes (mbAux a b (b2j b) (fun _ => false)
      (a.length + b.length + 1) 0 a.length 0 b.length) = m)
    (hlen : ¬ a.length + b.length = 0) :
    ratio a b = 2 * (m : ℚ) / ((a.length : ℚ) + (b.length : ℚ)) := by
  unfold ratio
  dsimp only
  rw [hm, if_neg hlen]

end Difflib

open Focus

/-- C1 counterexample: the claim "`attemptsUsed` is in `[1, MAX_RETRIES]` in
any script variant" fails on `marketing.py`: with a generation service that
always returns a text already in the corpus, its `regenerate_unique_post`
exhausts both phases and returns `attemptsUsed = 10 > MAX_RETRIES = 5`. -/
theorem C1_counterexample :
    Marketing.regenerate_unique_post (fun _ _ => "ab") "t" "o" ["ab"]
        ⟨"", "", "", "", "", ""⟩ "gpt-3.5-turbo"
      = .ok ("ab", 1, 10) ∧ ¬ ((10 : ℕ) ≤ Marketing.MAX_RETRIES) := by
  constructor
  · have hsim : ∀ j, Marketing.simAt (fun _ _ => "ab") ["ab"] 3000 j = 1 := by
      intro j
      have h : Marketing.simAt (fun _ _ => "ab") ["ab"] 3000 j
          = Focus.calculate_similarity "ab" "ab" := rfl
      rw [h]
      exact Difflib.ratio_self "ab".data
    have h6 : ∀ j, ¬ Marketing.simAt (fun _ _ => "ab") ["ab"] 3000 j < 6 / 10 := by
      intro j; rw [hsim j]; norm_num
    have h7 : ∀ j, ¬ Marketing.simAt (fun _ _ => "ab") ["ab"] 3000 j < 7 / 10 := by
      intro j; rw [hsim j]; norm_num
    have hrun := Marketing.go1_exhaust (fun _ _ => "ab") "ab" [] 3000 h6 h7
      Marketing.MAX_RETRIES 1 "o" 1
    show Marketing.go1 (fun _ _ => "ab") ["ab"]
      (Marketing.max_tokens ⟨"", "", "", "", "", ""⟩) Marketing.MAX_RETRIES 1 "o" 1 = _
    rw [show Marketing.max_tokens ⟨"", "", "", "", "", ""⟩ = 3000 from rfl, hrun]
    rw [show Marketing.candAt (fun _ _ => "ab") 3000 (2 * Marketing.MAX_RETRIES)
      = "ab" from rfl]
    rw [hsim (2 * Marketing.MAX_RETRIES)]
    rfl
  · decide

/-- C1 amended: in `xls.py` the attempt count is in `[1, MAX_RETRIES]` and the
returned text is the candidate generated on that attempt; `marketing.py` adds
a relaxed second phase, so there the attempt count is in
`[1, 2 * MAX_RETRIES]`, the text still being the candidate of the attempt
numbered `attemptsUsed`. -/
theorem C1_amended :
    (∀ (gen : ℕ → ℕ → String) (t o : String) (ex : List String)
        (cfg : PromptConfig),
      1 ≤ (Xls.regenerate_unique_post gen t o ex cfg).attempts ∧
      (Xls.regenerate_unique_post gen t o ex cfg).attempts ≤ Xls.MAX_RETRIES ∧
      (Xls.regenerate_unique_post gen t o ex cfg).text
        = Xls.candAt gen (Xls.max_tokens cfg)
            (Xls.regenerate_unique_post gen t o ex cfg).attempts) ∧
    (∀ (gen : ℕ → ℕ → String) (t o : String) (e : String) (es : List String)
        (cfg : PromptConfig) (m : String) (r : String × ℚ × ℕ),
      Marketing.regenerate_unique_post gen t o (e :: es) cfg m = .ok r →
        1 ≤ r.2.2 ∧ r.2.2 ≤ 2 * Marketing.MAX_RETRIES ∧
        r.1 = Marketing.candAt gen (Marketing.max_tokens cfg) r.2.2) := by
  constructor
  · intro gen t o ex cfg
    have h := Xls.go_spec gen ex (Xls.max_tokens cfg) Xls.MAX_RETRIES 1 o 1 rfl
      (by decide)
    exact ⟨h.1, h.2.1, h.2.2.1⟩
  · intro gen t o e es cfg m r hr
    exact Marketing.go1_spec gen e es (Marketing.max_tokens cfg)
      Marketing.MAX_RETRIES 1 o 1 rfl (by decide) r hr

/-- C1 witness: the amended bound instantiated on a concrete run that takes
all ten marketing attempts. -/
theorem C1_witness :
    1 ≤ (10 : ℕ) ∧ (10 : ℕ) ≤ 2 * Marketing.MAX_RETRIES ∧
    ("ab" : String) = Marketing.candAt (fun _ _ => "ab")
      (Marketing.max_tokens ⟨"", "", "", "", "", ""⟩) 10 := by
  apply C1_amended.2 (fun _ _ => "ab") "t" "o" "ab" [] ⟨"", "", "", "", "", ""⟩
    "gpt-3.5-turbo" ("ab", 1, 10)
  have hsim : ∀ j, Marketing.simAt (fun _ _ => "ab") ["ab"] 3000 j = 1 := by
    intro j
    have h : Marketing.simAt (fun _ _ => "ab") ["ab"] 3000 j
        = Focus.calculate_similarity "ab" "ab" := rfl
    rw [h]
    exact Difflib.ratio_self "ab".data
  have h6 : ∀ j, ¬ Marketing.simAt (fun _ _ => "ab") ["ab"] 3000 j < 6 / 10 := by
    intro j; rw [hsim j]; norm_num
  have h7 : ∀ j, ¬ Marketing.simAt (fun _ _ => "ab") ["ab"] 3000 j < 7 / 10 := by
    intro j; rw [hsim j]; norm_num
  have hrun := Marketing.go1_exhaust (fun _ _ => "ab") "ab" [] 3000 h6 h7
    Marketing.MAX_RETRIES 1 "o" 1
  show Marketing.go1 (fun _ _ => "ab") ["ab"]
    (Marketing.max_tokens ⟨"", "", "", "", "", ""⟩) Marketing.MAX_RETRIES 1 "o" 1 = _
  rw [show Marketing.max_tokens ⟨"", "", "", "", "", ""⟩ = 3000 from rfl, hrun]
  rw [show Marketing.candAt (fun _ _ => "ab") 3000 (2 * Marketing.MAX_RETRIES)
    = "ab" from rfl]
  rw [hsim (2 * Marketing.MAX_RETRIES)]
  rfl

/-- C2 counterexample: the claim "a call with an empty corpus completes
without error" fails on `nav.py`, whose `max(...)` has no `default` and
raises `ValueError` on the first attempt. -/
theorem C2_counterexample :
    Nav.regenerate_unique_post (fun _ _ => "x") "t" "o" []
      ⟨"", "", "", "", "", ""⟩ "gpt-3.5-turbo" = .error () := rfl

/-- C2 amended: with an empty corpus, `xls.py` (whose `max` has
`default=0`) defines the similarity as 0 and returns on the first attempt with
`attemptsUsed = 1`, while `nav.py` raises `ValueError`. -/
theorem C2_amended :
    ∀ (gen : ℕ → ℕ → String) (t o : String) (cfg : PromptConfig) (m : String),
      Xls.regenerate_unique_post gen t o [] cfg
        = ⟨Xls.candAt gen (Xls.max_tokens cfg) 1, 0, 1, [(1, Xls.max_tokens cfg)]⟩ ∧
      Nav.regenerate_unique_post gen t o [] cfg m = .error () := by
  intro gen t o cfg m
  constructor
  · have hsim0 : Xls.simAt gen [] (Xls.max_tokens cfg) 1 = 0 := rfl
    have hlt : Xls.simAt gen [] (Xls.max_tokens cfg) 1 < Xls.SIMILARITY_THRESHOLD := by
      rw [hsim0]; norm_num [Xls.SIMILARITY_THRESHOLD]
    show Xls.go gen [] (Xls.max_tokens cfg) Xls.MAX_RETRIES 1 o 1 = _
    rw [show Xls.MAX_RETRIES = 4 + 1 from rfl,
      Xls.go_first gen [] (Xls.max_tokens cfg) 4 1 o 1 hlt, hsim0]
  · rfl

/-- C3: when every attempt's similarity stays at or above the threshold,
`regenerate_unique_post` does not raise: `xls.py` returns the final attempt's
candidate with its score and `attemptsUsed = MAX_RETRIES`, and so does
`publi_sup.py` (on a nonempty corpus, which its `max(...)` requires). -/
theorem C3_exhaustion_returns_last :
    ∀ (gen : ℕ → ℕ → String) (t o : String) (ex : List String)
      (cfg : PromptConfig) (e : String) (es : List String) (m : String),
      ((∀ j, 1 ≤ j → j ≤ Xls.MAX_RETRIES →
          ¬ Xls.simAt gen ex (Xls.max_tokens cfg) j < Xls.SIMILARITY_THRESHOLD) →
        (Xls.regenerate_unique_post gen t o ex cfg).attempts = Xls.MAX_RETRIES ∧
        (Xls.regenerate_unique_post gen t o ex cfg).text
          = Xls.candAt gen (Xls.max_tokens cfg) Xls.MAX_RETRIES ∧
        (Xls.regenerate_unique_post gen t o ex cfg).score
          = Xls.simAt gen ex (Xls.max_tokens cfg) Xls.MAX_RETRIES) ∧
      ((∀ j, 1 ≤ j → j ≤ PubliSup.MAX_RETRIES →
          ¬ PubliSup.simAt gen (e :: es) j < PubliSup.SIMILARITY_THRESHOLD) →
        PubliSup.regenerate_unique_post gen t o (e :: es) cfg m
          = .ok (PubliSup.candAt gen PubliSup.MAX_RETRIES,
              PubliSup.simAt gen (e :: es) PubliSup.MAX_RETRIES,
              PubliSup.MAX_RETRIES)) := by
  intro gen t o ex cfg e es m
  constructor
  · intro hsim
    obtain ⟨g1, g2, g3, g4, g5, g6, g7, g8⟩ :=
      Xls.go_spec gen ex (Xls.max_tokens cfg) Xls.MAX_RETRIES 1 o 1 rfl (by decide)
    have hA : Xls.regenerate_unique_post gen t o ex cfg
        = Xls.go gen ex (Xls.max_tokens cfg) Xls.MAX_RETRIES 1 o 1 := rfl
    rw [hA]
    have hfive : (Xls.go gen ex (Xls.max_tokens cfg) Xls.MAX_RETRIES 1 o 1).attempts
        = Xls.MAX_RETRIES := by
      by_contra hne
      have hlt : (Xls.go gen ex (Xls.max_tokens cfg) Xls.MAX_RETRIES 1 o 1).attempts
          < Xls.MAX_RETRIES := by omega
      have hscore := g5 hlt
      rw [g4] at hscore
      exact hsim _ g1 (by omega) hscore
    exact ⟨hfive, by rw [g3, hfive], by rw [g4, hfive]⟩
  · intro hsim
    exact PubliSup.go_exhaust gen e es hsim PubliSup.MAX_RETRIES 1 "" 0 rfl
      (by decide) (by decide)

/-- C3 witness: a service that always echoes the corpus text exhausts all five
attempts in both variants. -/
theorem C3_witness :
    (Xls.regenerate_unique_post (fun _ _ => "ab") "t" "o" ["ab"]
      ⟨"", "", "", "", "", ""⟩).attempts = Xls.MAX_RETRIES ∧
    PubliSup.regenerate_unique_post (fun _ _ => "ab") "t" "o" ["ab"]
      ⟨"", "", "", "", "", ""⟩ "m"
      = .ok (PubliSup.candAt (fun _ _ => "ab") PubliSup.MAX_RETRIES,
          PubliSup.simAt (fun _ _ => "ab") ["ab"] PubliSup.MAX_RETRIES,
          PubliSup.MAX_RETRIES) := by
  have hone : Focus.calculate_similarity "ab" "ab" = 1 := Difflib.ratio_self "ab".data
  have hx : ∀ j, 1 ≤ j → j ≤ Xls.MAX_RETRIES →
      ¬ Xls.simAt (fun _ _ => "ab") ["ab"]
        (Xls.max_tokens ⟨"", "", "", "", "", ""⟩) j < Xls.SIMILARITY_THRESHOLD := by
    intro j _ _
    have h : Xls.simAt (fun _ _ => "ab") ["ab"]
        (Xls.max_tokens ⟨"", "", "", "", "", ""⟩) j
        = Focus.calculate_similarity "ab" "ab" := rfl
    rw [h, hone]
    norm_num [Xls.SIMILARITY_THRESHOLD]
  have hp : ∀ j, 1 ≤ j → j ≤ PubliSup.MAX_RETRIES →
      ¬ PubliSup.simAt (fun _ _ => "ab") ["ab"] j < PubliSup.SIMILARITY_THRESHOLD := by
    intro j _ _
    have h : PubliSup.simAt (fun _ _ => "ab") ["ab"] j
        = Focus.calculate_similarity "ab" "ab" := rfl
    rw [h, hone]
    norm_num [PubliSup.SIMILARITY_THRESHOLD]
  have hth := C3_exhaustion_returns_last (fun _ _ => "ab") "t" "o" ["ab"]
    ⟨"", "", "", "", "", ""⟩ "ab" [] "m"
  exact ⟨(hth.1 hx).1, hth.2 hp⟩

/-- C4 counterexample: the claim's conditional reading fails twice.  In
`xls.py`, a style field containing both `"2000자"` and `"2500자"` yields 2500,
not 2000 (`"2500자"` is tested first).  In `publi_ad.py` the budget is not
derived from the style field at all but from the model name: with the field
`"2000자"` the single issued call carries 3000 tokens. -/
theorem C4_counterexample :
    Xls.max_tokens ⟨"", "", "", "", "", "2000자 2500자"⟩ = 2500 ∧ (2500 : ℕ) ≠ 2000 ∧
    (PubliAd.regenerate_unique_post (fun _ _ => "x") "t" "o" ["yyyy"]
        ⟨"", "", "", "", "", "2000자"⟩ "gpt-3.5-turbo").calls = [(1, 3000)] ∧
    (3000 : ℕ) ≠ 2000 := by
  refine ⟨rfl, by decide, ?_, by decide⟩
  have f2 : Focus.calculate_similarity "x" "yyyy" = 0 := by
    show Difflib.ratio "x".data "yyyy".data = 0
    rw [Difflib.ratio_eval "x".data "yyyy".data 0 rfl (by decide)]
    norm_num
  have hsim : PubliAd.simAt (fun _ _ => "x") ["yyyy"] 3000 1
      = Focus.calculate_similarity "x" "yyyy" := rfl
  have hlt : PubliAd.simAt (fun _ _ => "x") ["yyyy"] 3000 1
      < PubliAd.SIMILARITY_THRESHOLD := by
    rw [hsim, f2]; norm_num [PubliAd.SIMILARITY_THRESHOLD]
  show (PubliAd.go (fun _ _ => "x") ["yyyy"]
    (PubliAd.max_tokens "gpt-3.5-turbo") PubliAd.MAX_RETRIES 1 "o" 1).calls = _
  rw [show PubliAd.max_tokens "gpt-3.5-turbo" = 3000 from rfl,
    show PubliAd.MAX_RETRIES = 4 + 1 from rfl,
    PubliAd.go_first_ad (fun _ _ => "x") ["yyyy"] 3000 4 1 "o" 1 hlt]

/-- C4 amended: in `xls.py` every attempt's request carries the budget
derived from the last style field, with `"2500자"` taking precedence over
`"2000자"` and 3000 as the default; in `publi_ad.py` every attempt's request
carries the analogous budget derived from the model name. -/
theorem C4_amended :
    ∀ (gen : ℕ → ℕ → String) (t o : String) (ex : List String)
      (cfg : PromptConfig) (model : String),
      (∀ p ∈ (Xls.regenerate_unique_post gen t o ex cfg).calls,
        p.2 = Xls.max_tokens cfg) ∧
      (strIn "2500자" (pyLower cfg.etc) = true → Xls.max_tokens cfg = 2500) ∧
      (strIn "2500자" (pyLower cfg.etc) = false →
        strIn "2000자" (pyLower cfg.etc) = true → Xls.max_tokens cfg = 2000) ∧
      (strIn "2500자" (pyLower cfg.etc) = false →
        strIn "2000자" (pyLower cfg.etc) = false → Xls.max_tokens cfg = 3000) ∧
      (∀ p ∈ (PubliAd.regenerate_unique_post gen t o ex cfg model).calls,
        p.2 = PubliAd.max_tokens model) := by
  intro gen t o ex cfg model
  refine ⟨?_, ?_, ?_, ?_, ?_⟩
  · exact (Xls.go_spec gen ex (Xls.max_tokens cfg) Xls.MAX_RETRIES 1 o 1 rfl
      (by decide)).2.2.2.2.2.2.1
  · intro h
    unfold Xls.max_tokens
    dsimp only
    rw [if_pos h]
  · intro h1 h2
    unfold Xls.max_tokens
    dsimp only
    rw [if_neg (by simp [h1]), if_pos h2]
  · intro h1 h2
    unfold Xls.max_tokens
    dsimp only
    rw [if_neg (by simp [h1]), if_neg (by simp [h2])]
  · exact (PubliAd.go_calls gen ex (PubliAd.max_tokens model)
      PubliAd.MAX_RETRIES 1 o 1).1

/-- C4 witness: the budget rule instantiated on a concrete issued call. -/
theorem C4_witness :
    ((1, 2500) : ℕ × ℕ).2 = Xls.max_tokens ⟨"", "", "", "", "", "2500자"⟩ := by
  apply (C4_amended (fun _ _ => "x") "t" "o" ["yyyy"]
    ⟨"", "", "", "", "", "2500자"⟩ "m").1
  have f2 : Focus.calculate_similarity "x" "yyyy" = 0 := by
    show Difflib.ratio "x".data "yyyy".data = 0
    rw [Difflib.ratio_eval "x".data "yyyy".data 0 rfl (by decide)]
    norm_num
  have hsim : Xls.simAt (fun _ _ => "x") ["yyyy"] 2500 1
      = Focus.calculate_similarity "x" "yyyy" := rfl
  have hlt : Xls.simAt (fun _ _ => "x") ["yyyy"] 2500 1
      < Xls.SIMILARITY_THRESHOLD := by
    rw [hsim, f2]; norm_num [Xls.SIMILARITY_THRESHOLD]
  show (1, 2500) ∈ (Xls.go (fun _ _ => "x") ["yyyy"]
    (Xls.max_tokens ⟨"", "", "", "", "", "2500자"⟩) Xls.MAX_RETRIES 1 "o" 1).calls
  rw [show Xls.max_tokens ⟨"", "", "", "", "", "2500자"⟩ = 2500 from rfl,
    show Xls.MAX_RETRIES = 4 + 1 from rfl,
    Xls.go_first (fun _ _ => "x") ["yyyy"] 2500 4 1 "o" 1 hlt]
  simp

/-- C5: the cleanup removes a leading `서론:` in the shared `clean_content`
(as in `xls.py`), but `information.py`'s copy has a garbled regex
(`\[:-]?\s\*` instead of `[:\-]?\s*`) and leaves the line unchanged,
contradicting the behaviour every sibling script and the spec describe. -/
theorem C5_information_regex_bug :
    Focus.clean_content "서론: 내용" = "내용" ∧
    Information.clean_content "서론: 내용" = "서론: 내용" ∧
    ("내용" : String) ≠ "서론: 내용" := by
  exact ⟨rfl, rfl, by decide⟩

/-- C6: a candidate identical to a corpus member scores exactly 1.0 (the
`SequenceMatcher` ratio of a string with itself is 1, every ratio lies in
`[0, 1]`, so the corpus maximum is 1), which fails the `< 0.6` acceptance
test, so `xls.py`'s loop cannot return on an attempt whose candidate is
already in the corpus (short of exhaustion). -/
theorem C6_identical_candidate (s : String) (corpus : List String)
    (hs : s ∈ corpus) :
    Focus.calculate_similarity s s = 1 ∧
    (∀ t u : String, 0 ≤ Focus.calculate_similarity t u ∧
      Focus.calculate_similarity t u ≤ 1) ∧
    pyMaxD (corpus.map (fun t => Focus.calculate_similarity s t)) 0 = 1 ∧
    ¬ pyMaxD (corpus.map (fun t => Focus.calculate_similarity s t)) 0
      < Xls.SIMILARITY_THRESHOLD ∧
    (∀ (gen : ℕ → ℕ → String) (t o : String) (cfg : PromptConfig) (i : ℕ),
      1 ≤ i → i < Xls.MAX_RETRIES →
      Xls.candAt gen (Xls.max_tokens cfg) i = s →
      (Xls.regenerate_unique_post gen t o corpus cfg).attempts ≠ i) := by
  refine ⟨Difflib.ratio_self s.data,
    fun t u => ⟨Difflib.ratio_nonneg t.data u.data, Difflib.ratio_le_one t.data u.data⟩,
    pyMaxD_sim_self s corpus hs, ?_, ?_⟩
  · rw [pyMaxD_sim_self s corpus hs]
    norm_num [Xls.SIMILARITY_THRESHOLD]
  · intro gen t o cfg i hi1 hi5 hcand heq
    obtain ⟨g1, g2, g3, g4, g5, g6, g7, g8⟩ :=
      Xls.go_spec gen corpus (Xls.max_tokens cfg) Xls.MAX_RETRIES 1 o 1 rfl
        (by decide)
    have hA : Xls.regenerate_unique_post gen t o corpus cfg
        = Xls.go gen corpus (Xls.max_tokens cfg) Xls.MAX_RETRIES 1 o 1 := rfl
    rw [hA] at heq
    have hsimi : Xls.simAt gen corpus (Xls.max_tokens cfg) i = 1 := by
      unfold Xls.simAt
      rw [hcand]
      exact pyMaxD_sim_self s corpus hs
    have hlt := g5 (by rw [heq]; exact hi5)
    rw [g4, heq, hsimi] at hlt
    norm_num [Xls.SIMILARITY_THRESHOLD] at hlt

/-- C6 witness: the theorem at the concrete corpus `["ab"]` with `s = "ab"`. -/
theorem C6_witness : Focus.calculate_similarity "ab" "ab" = 1 :=
  (C6_identical_candidate "ab" ["ab"] (by simp)).1

/-- C7: cleanup is the identity up to surrounding-whitespace trim on texts in
which no line starts with one of the four header labels: `clean_content`
then coincides with Python's `str.strip`. -/
theorem C7_cleanup_identity (s : String)
    (h : Focus.headerFree true s.data = true) :
    Focus.clean_content s = Focus.pyStrip s := by
  unfold Focus.clean_content
  rw [Focus.reSubGo_headerFree s.data.length true s.data (Nat.le_refl _) h]

/-- C7 witness: a concrete header-free text passes through unchanged but for
the trim. -/
theorem C7_witness :
    Focus.headerFree true "hello\nworld".data = true ∧
    Focus.clean_content "hello\nworld" = Focus.pyStrip "hello\nworld" :=
  ⟨by decide, C7_cleanup_identity "hello\nworld" (by decide)⟩

/-- C8: the wrapper runs the member scripts in a fixed order: what has been
invoked is always a prefix of that order; when every required script
succeeds the whole sequence runs and the process exits cleanly; the failure
of a required script terminates the run with exit code 1. -/
theorem C8_wrapper_order (env : FocusMain.ScriptEnv)
    (hex : ∀ n ∈ FocusMain.scriptOrder, env.present n = true) :
    ((∀ n ∈ FocusMain.requiredScripts, env.succeeds n = true) →
      (FocusMain.main env).1 = FocusMain.scriptOrder ∧
      (FocusMain.main env).2 = none) ∧
    ((∃ n ∈ FocusMain.requiredScripts, env.succeeds n = false) →
      (FocusMain.main env).2 = some 1) ∧
    (FocusMain.main env).1
      = FocusMain.scriptOrder.take (FocusMain.main env).1.length := by
  have p1 : env.present "raindrop.py" = true :=
    hex _ (by simp [FocusMain.scriptOrder])
  have p2 : env.present "publi_ad.py" = true :=
    hex _ (by simp [FocusMain.scriptOrder])
  have p3 : env.present "publi_sup.py" = true :=
    hex _ (by simp [FocusMain.scriptOrder])
  have p4 : env.present "publi_xls.py" = true :=
    hex _ (by simp [FocusMain.scriptOrder])
  have p5 : env.present "image.py" = true :=
    hex _ (by simp [FocusMain.scriptOrder])
  have p6 : env.present "xls.py" = true :=
    hex _ (by simp [FocusMain.scriptOrder])
  refine ⟨?_, ?_, ?_⟩
  · intro hall
    have h1 : env.succeeds "raindrop.py" = true :=
      hall _ (by simp [FocusMain.requiredScripts])
    have h2 : env.succeeds "publi_ad.py" = true :=
      hall _ (by simp [FocusMain.requiredScripts])
    have h3 : env.succeeds "publi_sup.py" = true :=
      hall _ (by simp [FocusMain.requiredScripts])
    have h4 : env.succeeds "publi_xls.py" = true :=
      hall _ (by simp [FocusMain.requiredScripts])
    constructor <;>
      simp [FocusMain.main, FocusMain.run_script, FocusMain.scriptOrder,
        p1, p2, p3, p4, p5, p6, h1, h2, h3, h4]
  · rintro ⟨n, hn, hf⟩
    simp only [FocusMain.requiredScripts, List.mem_cons,
      List.not_mem_nil, or_false] at hn
    rcases h1 : env.succeeds "raindrop.py" <;>
      rcases h2 : env.succeeds "publi_ad.py" <;>
        rcases h3 : env.succeeds "publi_sup.py" <;>
          rcases h4 : env.succeeds "publi_xls.py" <;>
            rcases hn with rfl | rfl | rfl | rfl <;>
              simp_all [FocusMain.main, FocusMain.run_script, p1, p2, p3, p4, p5, p6]
  · rcases h1 : env.succeeds "raindrop.py" <;>
      rcases h2 : env.succeeds "publi_ad.py" <;>
        rcases h3 : env.succeeds "publi_sup.py" <;>
          rcases h4 : env.succeeds "publi_xls.py" <;>
            simp [FocusMain.main, FocusMain.run_script, FocusMain.scriptOrder,
              p1, p2, p3, p4, p5, p6, h1, h2, h3, h4]

/-- C8 witness: an environment where every script is present and succeeds
runs the full sequence and exits cleanly. -/
theorem C8_witness :
    (FocusMain.main ⟨fun _ => true, fun _ => true⟩).1 = FocusMain.scriptOrder ∧
    (FocusMain.main ⟨fun _ => true, fun _ => true⟩).2 = none :=
  (C8_wrapper_order ⟨fun _ => true, fun _ => true⟩ (fun _ _ => rfl)).1
    (fun _ _ => rfl)

/-- C9 counterexample: the claim that `publi_xls.py` behaves exactly like
`xls.py` fails on the token budget: with a style field containing both
`"2500자"` and `"3000자"`, `xls.py` requests 2500 tokens per attempt while
`publi_xls.py` (which tests `"3000자"` first) requests 3000. -/
theorem C9_counterexample :
    (Xls.regenerate_unique_post (fun _ _ => "x") "t" "o" ["yyyy"]
      ⟨"", "", "", "", "", "2500자 3000자"⟩).calls = [(1, 2500)] ∧
    PubliXls.regenerate_unique_post (fun _ _ => "x") "t" "o" ["yyyy"]
      ⟨"", "", "", "", "", "2500자 3000자"⟩
      = .ok ⟨"x", 0, 1, [(1, 3000)]⟩ ∧
    ([(1, 2500)] : List (ℕ × ℕ)) ≠ [(1, 3000)] := by
  have f2 : Focus.calculate_similarity "x" "yyyy" = 0 := by
    show Difflib.ratio "x".data "yyyy".data = 0
    rw [Difflib.ratio_eval "x".data "yyyy".data 0 rfl (by decide)]
    norm_num
  refine ⟨?_, ?_, by decide⟩
  · have hsim : Xls.simAt (fun _ _ => "x") ["yyyy"] 2500 1
        = Focus.calculate_similarity "x" "yyyy" := rfl
    have hlt : Xls.simAt (fun _ _ => "x") ["yyyy"] 2500 1
        < Xls.SIMILARITY_THRESHOLD := by
      rw [hsim, f2]; norm_num [Xls.SIMILARITY_THRESHOLD]
    show (Xls.go (fun _ _ => "x") ["yyyy"]
      (Xls.max_tokens ⟨"", "", "", "", "", "2500자 3000자"⟩)
      Xls.MAX_RETRIES 1 "o" 1).calls = _
    rw [show Xls.max_tokens ⟨"", "", "", "", "", "2500자 3000자"⟩ = 2500 from rfl,
      show Xls.MAX_RETRIES = 4 + 1 from rfl,
      Xls.go_first (fun _ _ => "x") ["yyyy"] 2500 4 1 "o" 1 hlt]
  · have hsim : Xls.simAt (fun _ _ => "x") ["yyyy"] 3000 1
        = Focus.calculate_similarity "x" "yyyy" := rfl
    have hlt : Xls.simAt (fun _ _ => "x") ["yyyy"] 3000 1
        < Xls.SIMILARITY_THRESHOLD := by
      rw [hsim, f2]; norm_num [Xls.SIMILARITY_THRESHOLD]
    show PubliXls.go (fun _ _ => "x") ["yyyy"]
      (PubliXls.max_tokens ⟨"", "", "", "", "", "2500자 3000자"⟩)
      PubliXls.MAX_RETRIES 1 "o" 1 = _
    rw [show PubliXls.max_tokens ⟨"", "", "", "", "", "2500자 3000자"⟩ = 3000 from rfl,
      show PubliXls.MAX_RETRIES = Xls.MAX_RETRIES from rfl,
      PubliXls.go_eq_xls (fun _ _ => "x") "yyyy" [] 3000 Xls.MAX_RETRIES 1 "o" 1,
      show Xls.MAX_RETRIES = 4 + 1 from rfl,
      Xls.go_first (fun _ _ => "x") ["yyyy"] 3000 4 1 "o" 1 hlt]
    rw [show Xls.candAt (fun _ _ => "x") 3000 1 = "x" from rfl, hsim, f2]

/-- C9 amended: on a nonempty corpus, and whenever the style field does not
mix a `"3000자"` hint with a `"2500자"`/`"2000자"` hint (so both branch orders
derive the same budget), `publi_xls.py`'s `regenerate_unique_post` returns
exactly `xls.py`'s result. -/
theorem C9_amended :
    ∀ (gen : ℕ → ℕ → String) (t o : String) (e : String) (es : List String)
      (cfg : PromptConfig),
      (strIn "3000자" (pyLower cfg.etc) = true →
        strIn "2500자" (pyLower cfg.etc) = false ∧
        strIn "2000자" (pyLower cfg.etc) = false) →
      PubliXls.regenerate_unique_post gen t o (e :: es) cfg
        = .ok (Xls.regenerate_unique_post gen t o (e :: es) cfg) := by
  intro gen t o e es cfg hcfg
  have htok : PubliXls.max_tokens cfg = Xls.max_tokens cfg := by
    unfold PubliXls.max_tokens Xls.max_tokens
    dsimp only
    by_cases h3 : strIn "3000자" (pyLower cfg.etc) = true
    · obtain ⟨h25, h20⟩ := hcfg h3
      rw [if_pos h3, if_neg (by simp [h25]), if_neg (by simp [h20])]
    · rw [if_neg h3]
  show PubliXls.go gen (e :: es) (PubliXls.max_tokens cfg)
    PubliXls.MAX_RETRIES 1 o 1 = _
  rw [htok]
  exact PubliXls.go_eq_xls gen e es (Xls.max_tokens cfg) PubliXls.MAX_RETRIES 1 o 1

/-- C9 witness: the refinement at a concrete hint-free configuration. -/
theorem C9_witness :
    PubliXls.regenerate_unique_post (fun _ _ => "a") "t" "o" ["b"]
      ⟨"", "", "", "", "", ""⟩
      = .ok (Xls.regenerate_unique_post (fun _ _ => "a") "t" "o" ["b"]
          ⟨"", "", "", "", "", ""⟩) :=
  C9_amended (fun _ _ => "a") "t" "o" "b" [] ⟨"", "", "", "", "", ""⟩ (by decide)

/-- C10: `fetch_and_process_raindrop` never appends a duplicate link: every
link it appends is absent from the pre-existing link column, and if that
column was itself duplicate-free the column after the run still is. -/
theorem C10_no_duplicate_links (extract : String → Option String)
    (items : List Raindrop.RItem) (col : List String) (hnd : col.Nodup) :
    (∀ x ∈ (Raindrop.fetchLoop extract items col []).2, x ∉ col) ∧
    (Raindrop.linkColumnAfter extract items col).Nodup := by
  have h := Raindrop.fetchLoop_spec extract col items col []
    (fun x hx => hx) List.nodup_nil (by simp) (by simp)
  refine ⟨h.2, ?_⟩
  unfold Raindrop.linkColumnAfter
  rw [List.nodup_append]
  exact ⟨hnd, h.1, fun x hx hx2 => h.2 x hx2 hx⟩

/-- C10 witness: a concrete run in which an item repeats a link and another
item's link is already in the sheet. -/
theorem C10_witness :
    (Raindrop.linkColumnAfter (fun _ => some "c")
      [⟨"t", "a", ["g"]⟩, ⟨"t", "b", ["g"]⟩, ⟨"t", "b", ["g"]⟩]
      ["a"]).Nodup :=
  (C10_no_duplicate_links (fun _ => some "c")
    [⟨"t", "a", ["g"]⟩, ⟨"t", "b", ["g"]⟩, ⟨"t", "b", ["g"]⟩]
    ["a"] (by decide)).2
